import Mathlib

/-!
Shallow embedding of the 18TUI session tracker core (crates/core/src/save.rs and
crates/tui/src/app.rs) together with proofs about its claimed behaviour.

Conventions used throughout:
* Rust `usize` indices become `Nat`; `isize`/`i32`/`i64` arithmetic becomes `Int`
  (the quantities involved never approach the machine bounds, and the single
  place where a wrapping cast matters — the `col as usize` comparison inside
  `move_market_cursor` — is modelled explicitly below).
* Rust `Vec<T>` becomes `List T`; `HashMap` lookups over the market index are
  modelled as `List.find?` over the entry list the source builds the map from
  (the entries carry pairwise distinct `(row, col)` keys).
* Fallible operations return `Option`/`Except`.
* Fields of the source structs that only drive terminal rendering (viewport
  offsets, banner flags, pending text input buffers) and wall-clock metadata
  (`saved_at`, `game_id`, `name`) are not modelled; no operation studied here
  reads them.
-/

namespace App18

/-- `serde_json::Value`, used by the source for train distance specs and phase
payloads that the session core merely carries around. -/
inductive JsonVal where
  | null : JsonVal
  | bool (b : Bool) : JsonVal
  | num (n : Int) : JsonVal
  | str (s : String) : JsonVal
  | arr (items : List JsonVal) : JsonVal
  | obj (fields : List (String × JsonVal)) : JsonVal

/-! ## Save / history subsystem (crates/core/src/save.rs)

`SavePayload` stores JSON snapshots and only ever compares them structurally,
so the embedding is parametric in the snapshot type `V` with decidable
equality standing in for `serde_json::Value`'s structural `==`. -/

structure SavePayload (V : Type) where
  state : V
  history : List V
  history_index : Nat

variable {V : Type}

/-- `SavePayload::normalize_history`. -/
def normalize_history (p : SavePayload V) : SavePayload V :=
  let p1 :=
    if p.history.isEmpty then
      let h := p.history ++ [p.state]
      { p with history := h, history_index := h.length - 1 }
    else if p.history.length ≤ p.history_index then
      { p with history_index := p.history.length - 1 }
    else p
  match p1.history.get? p1.history_index with
  | some current => { p1 with state := current }
  | none => p1

/-- The redo-branch truncation step of `SavePayload::push_state`: when the
cursor is not at the tail, drop every snapshot after it. -/
def truncate_redo (p : SavePayload V) : SavePayload V :=
  if p.history_index + 1 < p.history.length then
    { p with history := p.history.take (p.history_index + 1) }
  else p

/-- `SavePayload::push_state`. -/
def push_state [DecidableEq V] (p0 : SavePayload V) (s : V) : SavePayload V :=
  let p := truncate_redo (normalize_history p0)
  if ((p.history.getLast?).map (fun v => v == s)).getD false then p
  else
    let h := p.history ++ [s]
    { p with history := h, history_index := h.length - 1, state := s }

/-- `SavePayload::set_history_index`; `none` models the `OutOfRange` error.
The source mutates `self` in place and returns `Result<()>`; on the error path
the (already normalized) payload is left untouched, which the caller keeps. -/
def set_history_index (p0 : SavePayload V) (index : Nat) : Option (SavePayload V) :=
  let p := normalize_history p0
  if p.history.length ≤ index then none
  else
    match p.history.get? index with
    | some current => some { p with history_index := index, state := current }
    | none => some { p with history_index := index }

/-- `SavePayload::new` seeds a fresh payload from one state snapshot and
normalizes it, as the source constructor does. -/
def newPayload (s : V) : SavePayload V :=
  normalize_history { state := s, history := [], history_index := 0 }

/-- The at-rest invariant of a save payload claimed by the spec. -/
def PayloadInv (p : SavePayload V) : Prop :=
  p.history ≠ [] ∧ p.history_index < p.history.length ∧
    p.history.get? p.history_index = some p.state

/-! ## Session data model (crates/core/src/session/models.rs) -/

/-- `MarketPosition`: a corporation token's spot on the stock grid. -/
structure MarketPosition where
  row : Nat
  col : Nat
  value : Option Int
  raw : String
deriving DecidableEq

/-- `MarketCell`: one non-empty cell of the (ragged) market grid. -/
structure MarketCell where
  row : Nat
  col : Nat
  value : Option Int
  raw : String
  is_par : Bool
deriving DecidableEq

/-- `CorporationTrain`: a train owned by a corporation. -/
structure CorporationTrain where
  name : String
  distance : JsonVal
  price : Option Int
  revenue_stops : List Int
  last_revenue : Int

/-- `Corporation` with its runtime state fields. -/
structure Corporation where
  sym : String
  name : String
  color : Option String
  text_color : Option String
  par_value : Option Int
  market_position : Option MarketPosition
  trains : List CorporationTrain
  last_revenue : Int

/-- `TrainType`: an entry of the train catalog. -/
structure TrainType where
  name : String
  distance : JsonVal
  price : Option Int
  total : Int
  rusts_on : JsonVal
  obsolete_on : JsonVal

/-- `TrainPoolEntry`: remaining supply for one train type. -/
structure TrainPoolEntry where
  name : String
  remaining : Int

/-! ### Market cell extraction (crates/core/src/session/loader.rs)

`collect_market_cells` walks the ragged grid with the enumerated row and
column indices, skipping cells whose raw text is blank; `RAW_NUMBER_RE`
(`(\d+)`) captures the first maximal digit run of the raw text and parses it
as `i32`, and a cell is par-flagged when its raw text contains `p` or `P`. -/

/-- Rust `str::trim` (the market data is ASCII), computed on the character
list so that proofs can evaluate it. -/
def strTrim (s : String) : String :=
  String.mk (((s.toList.dropWhile Char.isWhitespace).reverse.dropWhile
    Char.isWhitespace).reverse)

/-- Rust `str::contains(char)`, computed on the character list. -/
def strContainsChar (s : String) (c : Char) : Bool :=
  s.toList.contains c

/-- The first maximal run of digit characters, if any (`RAW_NUMBER_RE`). -/
def raw_number_digits : List Char → Option (List Char)
  | [] => none
  | c :: rest =>
    if c.isDigit then some (c :: rest.takeWhile Char.isDigit)
    else raw_number_digits rest

/-- Rust `str::parse::<i32>` on an unsigned digit run: fails above `i32::MAX`. -/
def parse_i32_digits (ds : List Char) : Option Int :=
  let n : Nat := ds.foldl (fun acc c => acc * 10 + (c.toNat - '0'.toNat)) 0
  if n ≤ 2147483647 then some (n : Int) else none

/-- Numeric value of a raw market string (`RAW_NUMBER_RE` capture + parse). -/
def raw_number_capture (raw : String) : Option Int :=
  (raw_number_digits raw.toList).bind parse_i32_digits

/-- The `MarketCell` built from grid coordinates and raw text. -/
def mkMarketCell (row col : Nat) (raw : String) : MarketCell :=
  { row := row, col := col, value := raw_number_capture raw, raw := raw,
    is_par := strContainsChar raw 'p' || strContainsChar raw 'P' }

/-- Cells of one grid row, starting at column `ci` (inner `for` loop of
`collect_market_cells`). -/
def collect_row_cells (ri : Nat) : Nat → List String → List MarketCell
  | _, [] => []
  | ci, raw :: rest =>
    (if strTrim raw = "" then [] else [mkMarketCell ri ci raw]) ++
      collect_row_cells ri (ci + 1) rest

/-- `collect_market_cells`, starting at row `ri`. -/
def collect_cells_from (ri : Nat) : List (List String) → List MarketCell
  | [] => []
  | row :: rest => collect_row_cells ri 0 row ++ collect_cells_from (ri + 1) rest

/-- `collect_market_cells` over the whole grid. -/
def collect_market_cells (rows : List (List String)) : List MarketCell :=
  collect_cells_from 0 rows

/-- `available_par_cells_from`: the par-flagged cells, or every cell when none
is flagged (empty-par-set fallback). -/
def available_par_cells_from (cells : List MarketCell) : List MarketCell :=
  let par_list := cells.filter (fun cell => cell.is_par)
  if par_list.isEmpty then cells else par_list

/-- `GameSession` restricted to the fields the session state machine reads.
`market_index` is represented by `GameSession.market_cell` below, searching
the same entry list the source builds its `HashMap` from. -/
structure GameSession where
  corporations : List Corporation
  market : List (List String)
  market_cells : List MarketCell
  par_cells : List MarketCell
  train_types : List TrainType
  train_pool : List TrainPoolEntry

/-- `GameSession::market_cell`: lookup of the `(row, col)` key in the market
index. -/
def GameSession.market_cell (s : GameSession) (row col : Nat) : Option MarketCell :=
  s.market_cells.find? (fun cell => cell.row == row && cell.col == col)

/-- Well-formedness tying the denormalized `market_cells` / `par_cells` fields
to the grid they are derived from in `SessionLoader::build_session`. -/
def SessionWF (s : GameSession) : Prop :=
  s.market_cells = collect_market_cells s.market ∧
    s.par_cells = available_par_cells_from (collect_market_cells s.market)

/-- Well-formedness of the train pool from `build_session`: one pool entry per
catalog entry, named after it, initially holding the type's full supply. -/
def TrainPoolWF (s : GameSession) : Prop :=
  s.train_pool.length = s.train_types.length ∧
    ∀ i ty, s.train_types.get? i = some ty →
      ∃ entry, s.train_pool.get? i = some entry ∧ entry.name = ty.name

/-! ## Play-state enums and small records (crates/tui/src/app.rs) -/

/-- `PlayMode`. -/
inductive PlayMode where
  | Idle | ParSelect | PriceSelect | TrainManage | TrainRun
deriving DecidableEq

/-- `TrainFocus`. -/
inductive TrainFocus where
  | Owned | Pool
deriving DecidableEq

/-- `RevenueAction`. -/
inductive RevenueAction where
  | Dividend | Withhold
deriving DecidableEq

/-- `RevenueError`. -/
inductive RevenueError where
  | NoCorporation | NoMarketPosition
deriving DecidableEq

/-- `RevenueOutcome`. -/
structure RevenueOutcome where
  corp_sym : String
  total : Int
  price_label : String
  moved : Bool
  action : RevenueAction
deriving DecidableEq

/-- `PhaseInfo` (its `raw` JSON payload is carried unchanged). -/
structure PhaseInfo where
  name : String
  operating_rounds : Nat
  raw : JsonVal

/-- `OperatingRound`. -/
structure OperatingRound where
  revenues : List Int
deriving DecidableEq

/-- `OperatingRound::new`. -/
def OperatingRound.new (corporations : Nat) : OperatingRound :=
  { revenues := List.replicate corporations 0 }

/-! ## Train-run stop editor (`TrainRunState`) -/

/-- `TrainRunState`. -/
structure TrainRunState where
  train_index : Nat
  values : List Int
  cursor : Nat
  input : String
  train_name : String

/-- `TrainRunState::new`. -/
def TrainRunState.new (train_index : Nat) (train_name : String)
    (initial : List Int) : TrainRunState :=
  let base_values := if initial.isEmpty then [0] else initial
  { train_index := train_index, values := base_values, cursor := 0,
    input := "", train_name := train_name }

/-- `TrainRunState::current_value`. -/
def TrainRunState.current_value (s : TrainRunState) : Int :=
  (s.values.get? s.cursor).getD 0

/-- `TrainRunState::set_current_value` (`get_mut` is a no-op out of range,
matching `List.set`). -/
def TrainRunState.set_current_value (s : TrainRunState) (value : Int) : TrainRunState :=
  { s with values := s.values.set s.cursor value }

/-- `TrainRunState::append_digit`. -/
def TrainRunState.append_digit (s : TrainRunState) (ch : Char) : TrainRunState :=
  if ch.isDigit then { s with input := s.input.push ch } else s

/-- `TrainRunState::backspace`. -/
def TrainRunState.backspace (s : TrainRunState) : TrainRunState :=
  { s with input := s.input.dropRight 1 }

/-- Rust `str::parse::<i32>` as used on the (digit-only) pending input. -/
def TrainRunState.parse_input (input : String) : Option Int :=
  if input.toList ≠ [] ∧ input.toList.all Char.isDigit then
    parse_i32_digits input.toList
  else none

/-- `TrainRunState::commit_input`. -/
def TrainRunState.commit_input (s : TrainRunState) : TrainRunState :=
  if s.input = "" then s
  else
    let value := (TrainRunState.parse_input s.input).getD s.current_value
    { s.set_current_value value with input := "" }

/-- `TrainRunState::move_cursor`. -/
def TrainRunState.move_cursor (s : TrainRunState) (delta : Int) : TrainRunState :=
  let s := s.commit_input
  if s.values.isEmpty then { s with cursor := 0 }
  else
    let len : Int := s.values.length
    let idx : Int := (s.cursor : Int) + delta
    let idx := if idx < 0 then 0 else if len ≤ idx then len - 1 else idx
    { s with cursor := idx.toNat }

/-- `TrainRunState::add_stop`. -/
def TrainRunState.add_stop (s : TrainRunState) : TrainRunState :=
  let s := s.commit_input
  let vs := s.values ++ [0]
  { s with values := vs, cursor := vs.length - 1 }

/-- `TrainRunState::remove_stop`. -/
def TrainRunState.remove_stop (s : TrainRunState) : TrainRunState :=
  let s := s.commit_input
  if 1 < s.values.length then
    let vs := s.values.eraseIdx s.cursor
    let cursor := if vs.length ≤ s.cursor then vs.length - 1 else s.cursor
    { s with values := vs, cursor := cursor }
  else
    match s.values with
    | [] => s
    | _ :: rest => { s with values := 0 :: rest }

/-- `TrainRunState::clear_current`. -/
def TrainRunState.clear_current (s : TrainRunState) : TrainRunState :=
  { s.set_current_value 0 with input := "" }

/-- `TrainRunState::total`. -/
def TrainRunState.total (s : TrainRunState) : Int :=
  s.values.sum

/-! ## PlayState (crates/tui/src/app.rs) -/

/-- `PlayState`, restricted to the fields the session state machine reads and
writes; rendering-only viewport/banner/input fields are omitted. -/
structure PlayState where
  session : GameSession
  corporation_index : Nat
  market_cursor : Nat × Nat
  mode : PlayMode
  train_focus : TrainFocus
  train_pool_cursor : Nat
  train_owned_cursor : Nat
  train_run : Option TrainRunState
  phases : List PhaseInfo
  phase_index : Nat
  phase_rounds : List (List OperatingRound)
  revenue_cursor_corp : Nat
  revenue_cursor_or : Nat

/-- `current_corporation`. -/
def PlayState.current_corporation (st : PlayState) : Option Corporation :=
  st.session.corporations.get? st.corporation_index

/-- Replace the focused corporation (the effect of writing through
`current_corporation_mut`); a no-op when the focus index is out of range. -/
def PlayState.with_corporation (st : PlayState) (corp : Corporation) : PlayState :=
  { st with session :=
      { st.session with corporations :=
          st.session.corporations.set st.corporation_index corp } }

/-- `current_market_cell`. -/
def PlayState.current_market_cell (st : PlayState) : Option MarketCell :=
  st.session.market_cell st.market_cursor.1 st.market_cursor.2

/-- `is_par_cell`. -/
def PlayState.is_par_cell (st : PlayState) (row col : Nat) : Bool :=
  st.session.par_cells.any (fun cell => cell.row == row && cell.col == col)

/-- `max_market_columns`: `iter().map(len).max().unwrap_or(0)`. -/
def PlayState.max_market_columns (st : PlayState) : Nat :=
  (st.session.market.map List.length).foldr Nat.max 0

/-- `cell_to_position`. -/
def cell_to_position (cell : MarketCell) : MarketPosition :=
  { row := cell.row, col := cell.col, value := cell.value, raw := cell.raw }

/-- `sanitize_market_text`: drop ASCII-alphabetic characters, then trim. -/
def sanitize_market_text (raw : String) : String :=
  strTrim (String.mk (raw.toList.filter (fun c => !c.isAlpha)))

/-- `display_price_label`. -/
def display_price_label (raw : String) : String :=
  let sanitized := sanitize_market_text raw
  if sanitized = "" then strTrim raw else sanitized

/-! ### Market cursor movement (`move_market_cursor`) -/

/-- Length of grid row `r` (`market[r].len()`, rows out of range count 0). -/
def marketRowLen (market : List (List String)) (r : Nat) : Nat :=
  ((market.get? r).getD []).length

/-- The column candidate the loop body of `move_market_cursor` examines after
its bounds adjustment, `none` meaning `break`. In the source the test is
`col as usize >= row_len` on an `isize`: a negative column reinterpreted as
`usize` is also `≥ row_len`, so negatives take the same clamp branch and the
subsequent `col < 0` check can no longer fire. -/
def candidateCol (rowLen : Nat) (rowDelta : Int) (col : Int) : Option Int :=
  if col < 0 ∨ (rowLen : Int) ≤ col then
    if rowDelta = 0 then none else some ((rowLen - 1 : Nat) : Int)
  else some col

/-- The multi-row search loop of `move_market_cursor`. `fuel` bounds the
recursion; every path of the source loop terminates within the fuel supplied
by `move_market_cursor` below, except the degenerate grid whose current row is
a zero-length vector while `row_delta = 0` — there the source loop never
exits, and exhausted fuel models it as "no move found". -/
def moveLoopAux (st : PlayState) (rowDelta colDelta : Int) (maxAttempts : Nat) :
    Nat → Int → Int → Nat → Option (Nat × Nat)
  | 0, _, _, _ => none
  | fuel + 1, row0, col0, attempts0 =>
    let row := row0 + rowDelta
    let col := col0 + colDelta
    let attempts := attempts0 + 1
    if row < 0 then none
    else if (st.session.market.length : Int) ≤ row then none
    else
      let rowLen := marketRowLen st.session.market row.toNat
      if rowLen = 0 then
        moveLoopAux st rowDelta colDelta maxAttempts fuel row col attempts
      else
        match candidateCol rowLen rowDelta col with
        | none => none
        | some col1 =>
          match st.session.market_cell row.toNat col1.toNat with
          | some cell =>
            if st.mode = PlayMode.ParSelect ∧ ¬ st.is_par_cell cell.row cell.col then
              moveLoopAux st rowDelta colDelta maxAttempts fuel row col1 attempts
            else some (cell.row, cell.col)
          | none =>
            if maxAttempts < attempts then none
            else moveLoopAux st rowDelta colDelta maxAttempts fuel row col1 attempts

/-- `move_market_cursor`. The single-row branch wraps the column with the
source's `((col % len) + len) % len` (Rust `%` is `Int.tmod`); the multi-row
branch runs the bounded search loop. -/
def PlayState.move_market_cursor (st : PlayState) (rowDelta colDelta : Int) :
    PlayState :=
  if rowDelta = 0 ∧ colDelta = 0 then st
  else if st.session.market.isEmpty then st
  else if st.session.market.length = 1 then
    let rowLen := marketRowLen st.session.market 0
    if rowLen = 0 then st
    else if colDelta = 0 then st
    else
      let len : Int := rowLen
      let col := ((((st.market_cursor.2 : Int) + colDelta).tmod len) + len).tmod len
      { st with market_cursor := (0, col.toNat) }
  else
    let maxAttempts :=
      Nat.max (st.session.market.length * Nat.max st.max_market_columns 1) 1
    let fuel := st.session.market.length + st.max_market_columns + maxAttempts + 2
    match moveLoopAux st rowDelta colDelta maxAttempts fuel
        (st.market_cursor.1 : Int) (st.market_cursor.2 : Int) 0 with
    | some cursor => { st with market_cursor := cursor }
    | none => st

/-! ### Par / price selection -/

/-- `enter_par_select`; the returned `Bool` is the source's success flag. -/
def PlayState.enter_par_select (st : PlayState) : PlayState × Bool :=
  let st1 :=
    match st.current_corporation with
    | some corp =>
      match corp.market_position with
      | some pos =>
        if st.is_par_cell pos.row pos.col then
          { st with market_cursor := (pos.row, pos.col) }
        else st
      | none => st
    | none => st
  if st1.is_par_cell st1.market_cursor.1 st1.market_cursor.2 then
    ({ st1 with mode := PlayMode.ParSelect }, true)
  else
    match st1.session.par_cells.head? with
    | some cell =>
      ({ st1 with market_cursor := (cell.row, cell.col), mode := PlayMode.ParSelect },
        true)
    | none =>
      match st1.session.market_cells.head? with
      | some cell =>
        ({ st1 with market_cursor := (cell.row, cell.col), mode := PlayMode.ParSelect },
          true)
      | none => (st1, false)

/-- `apply_par_selection`; `none` leaves the state unchanged in the caller. -/
def PlayState.apply_par_selection (st : PlayState) : Option (PlayState × Int) :=
  match st.current_market_cell with
  | none => none
  | some cell =>
    let value := cell.value.getD 0
    match st.current_corporation with
    | none => none
    | some corp =>
      let st := st.with_corporation
        { corp with par_value := some value,
                    market_position := some (cell_to_position cell) }
      some ({ st with mode := PlayMode.Idle }, value)

/-- `apply_price_selection`. -/
def PlayState.apply_price_selection (st : PlayState) :
    Option (PlayState × MarketPosition) :=
  match st.current_market_cell with
  | none => none
  | some cell =>
    let position := cell_to_position cell
    match st.current_corporation with
    | none => none
    | some corp =>
      let st := st.with_corporation { corp with market_position := some position }
      some ({ st with mode := PlayMode.Idle }, position)

/-! ### Revenue / dividend subsystem -/

/-- `offset_market_position`. -/
def PlayState.offset_market_position (st : PlayState) (position : MarketPosition)
    (delta : Int × Int) : Option MarketPosition :=
  let row : Int := (position.row : Int) + delta.1
  let col : Int := (position.col : Int) + delta.2
  if row < 0 ∨ col < 0 then none
  else (st.session.market_cell row.toNat col.toNat).map cell_to_position

/-- `apply_revenue_action`. -/
def PlayState.apply_revenue_action (st : PlayState) (action : RevenueAction) :
    Except RevenueError (PlayState × RevenueOutcome) :=
  match st.current_corporation with
  | none => Except.error RevenueError.NoCorporation
  | some corp =>
    match corp.market_position with
    | none => Except.error RevenueError.NoMarketPosition
    | some current_position =>
      let desired_position :=
        match action with
        | RevenueAction.Dividend =>
          (st.offset_market_position current_position (0, 1)).orElse
            (fun _ => st.offset_market_position current_position (-1, 0))
        | RevenueAction.Withhold =>
          (st.offset_market_position current_position (0, -1)).orElse
            (fun _ => st.offset_market_position current_position (1, 0))
      let moved := desired_position.isSome
      let st' :=
        match desired_position with
        | some new_pos => st.with_corporation { corp with market_position := some new_pos }
        | none => st
      let position :=
        ((st'.current_corporation.bind Corporation.market_position)).getD
          current_position
      Except.ok (st',
        { corp_sym := corp.sym, total := corp.last_revenue,
          price_label := display_price_label position.raw, moved := moved,
          action := action })

/-! ### Phase / operating-round matrix -/

/-- `current_phase_index`. -/
def PlayState.current_phase_index (st : PlayState) : Nat :=
  Nat.min st.phase_index (st.phases.length - 1)

/-- `current_phase_rounds`. -/
def PlayState.current_phase_rounds (st : PlayState) : List OperatingRound :=
  (st.phase_rounds.get? st.current_phase_index).getD []

/-- The target round count of `ensure_phase_round_capacity`:
`phase.operating_rounds.max(1)`, defaulting to 1 for an unknown phase. -/
def PlayState.desired_rounds (st : PlayState) (phase_idx : Nat) : Nat :=
  match st.phases.get? phase_idx with
  | some phase => Nat.max phase.operating_rounds 1
  | none => 1

/-- `ensure_phase_round_capacity`. -/
def PlayState.ensure_phase_round_capacity (st : PlayState) (phase_idx : Nat) :
    PlayState :=
  let pr := st.phase_rounds ++
    List.replicate (phase_idx + 1 - st.phase_rounds.length) []
  let corp_count := st.session.corporations.length
  let desired := st.desired_rounds phase_idx
  let rounds := (pr.get? phase_idx).getD []
  let rounds :=
    if rounds.isEmpty then List.replicate desired (OperatingRound.new corp_count)
    else if rounds.length < desired then
      rounds ++ List.replicate (desired - rounds.length) (OperatingRound.new corp_count)
    else rounds
  let rounds := rounds.map (fun round =>
    if round.revenues.length < corp_count then
      { revenues := round.revenues ++
          List.replicate (corp_count - round.revenues.length) 0 }
    else round)
  { st with phase_rounds := pr.set phase_idx rounds }

/-- `add_operating_round` (the trailing `ensure_revenue_cursor_visible` call
only moves the unmodelled viewport). -/
def PlayState.add_operating_round (st : PlayState) : PlayState :=
  let corp_count := st.session.corporations.length
  if corp_count = 0 then st
  else
    let idx := st.current_phase_index
    let st := st.ensure_phase_round_capacity idx
    let rounds := (st.phase_rounds.get? idx).getD [] ++ [OperatingRound.new corp_count]
    { st with phase_rounds := st.phase_rounds.set idx rounds,
              revenue_cursor_or := rounds.length - 1 }

/-! ### Train pool, purchase and rusting -/

/-- `update_corporation_revenue`. -/
def update_corporation_revenue (corp : Corporation) : Corporation :=
  { corp with last_revenue := (corp.trains.map CorporationTrain.last_revenue).sum }

/-- Body of `available_trains`, enumerating the catalog from index `idx`. -/
def availableTrainsFrom (pool : List TrainPoolEntry) :
    Nat → List TrainType → List (Nat × TrainType × Int)
  | _, [] => []
  | idx, ty :: rest =>
    let remaining := ((pool.get? idx).map TrainPoolEntry.remaining).getD 0
    (if 0 < remaining then [(idx, ty, remaining)] else []) ++
      availableTrainsFrom pool (idx + 1) rest

/-- `available_trains`. -/
def PlayState.available_trains (st : PlayState) : List (Nat × TrainType × Int) :=
  availableTrainsFrom st.session.train_pool 0 st.session.train_types

/-- `sync_pool_cursor`. -/
def PlayState.sync_pool_cursor (st : PlayState) : PlayState :=
  let len := st.available_trains.length
  if len = 0 then { st with train_pool_cursor := 0 }
  else if len ≤ st.train_pool_cursor then { st with train_pool_cursor := len - 1 }
  else st

/-- `focus_owned_internal`. -/
def PlayState.focus_owned_internal (st : PlayState) : PlayState × Bool :=
  if (st.current_corporation.map (fun corp => !corp.trains.isEmpty)).getD false then
    let len := (st.current_corporation.map (fun corp => corp.trains.length)).getD 0
    let cursor := if 0 < len then Nat.min st.train_owned_cursor (len - 1) else 0
    ({ st with train_focus := TrainFocus.Owned, train_owned_cursor := cursor }, true)
  else (st, false)

/-- `focus_pool_internal`. -/
def PlayState.focus_pool_internal (st : PlayState) : PlayState × Bool :=
  if st.available_trains.isEmpty then (st, false)
  else (({ st with train_focus := TrainFocus.Pool }).sync_pool_cursor, true)

/-- `focus_owned`. -/
def PlayState.focus_owned (st : PlayState) : PlayState :=
  let (st1, ok) := st.focus_owned_internal
  if ok then st1 else st1.focus_pool_internal.1

/-- `set_owned_cursor`. -/
def PlayState.set_owned_cursor (st : PlayState) (index : Nat) : PlayState :=
  match (st.current_corporation.map (fun corp => corp.trains.length)) with
  | some len =>
    if 0 < len then { st with train_owned_cursor := Nat.min index (len - 1) }
    else { st with train_owned_cursor := 0 }
  | none => { st with train_owned_cursor := 0 }

/-- `purchase_available_train`: decrement the selected pool entry and hand back
the freshly built owned-train record; `none` leaves the state untouched. -/
def PlayState.purchase_available_train (st : PlayState) (selection : Nat) :
    PlayState × Option CorporationTrain :=
  match st.available_trains.get? selection with
  | none => (st, none)
  | some (idx, _, _) =>
    match st.session.train_types.get? idx with
    | none => (st, none)
    | some ty =>
      match st.session.train_pool.get? idx with
      | none => (st, none)
      | some entry =>
        if entry.remaining ≤ 0 then (st, none)
        else
          ({ st with session :=
              { st.session with train_pool := (st.session.train_pool.set idx
                  { entry with remaining := entry.remaining - 1 }) } },
            some { name := ty.name, distance := ty.distance, price := ty.price,
                   revenue_stops := [], last_revenue := 0 })

/-- `Tui18App::apply_train_purchase` (state effects only; status messages are
UI). The rollback arm re-credits the pool entry found by name when the
corporation reference cannot be re-obtained — unreachable here because the
corporation was checked immediately before and the purchase does not touch the
corporation list, exactly as in the source. -/
def PlayState.apply_train_purchase (st : PlayState) (selection : Nat) : PlayState :=
  match st.current_corporation with
  | none => st
  | some _ =>
    let (st1, purchased) := st.purchase_available_train selection
    match purchased with
    | none => st1.sync_pool_cursor
    | some train =>
      match st1.current_corporation with
      | none =>
        { st1 with session :=
            { st1.session with train_pool :=
                match st1.session.train_pool.findIdx? (fun e => e.name = train.name) with
                | some i =>
                  match st1.session.train_pool.get? i with
                  | some entry => st1.session.train_pool.set i
                      { entry with remaining := entry.remaining + 1 }
                  | none => st1.session.train_pool
                | none => st1.session.train_pool } }
      | some corp =>
        let corp := update_corporation_revenue
          { corp with trains := corp.trains ++ [train] }
        let new_owned_index := corp.trains.length - 1
        let st2 := st1.with_corporation corp
        ((st2.focus_owned).set_owned_cursor new_owned_index).sync_pool_cursor

/-- `rust_selected_train`. -/
def PlayState.rust_selected_train (st : PlayState) :
    PlayState × Option CorporationTrain :=
  if st.train_focus ≠ TrainFocus.Owned then (st, none)
  else
    match st.current_corporation with
    | none => (st, none)
    | some corp =>
      if corp.trains.isEmpty then (st, none)
      else
        let idx := Nat.min st.train_owned_cursor (corp.trains.length - 1)
        match corp.trains.get? idx with
        | none => (st, none)
        | some removed =>
          let corp := update_corporation_revenue
            { corp with trains := corp.trains.eraseIdx idx }
          let remaining := corp.trains.length
          let st1 := st.with_corporation corp
          let st2 :=
            if remaining = 0 then
              ({ st1 with train_owned_cursor := 0 }).focus_pool_internal.1
            else if remaining ≤ st1.train_owned_cursor then
              { st1 with train_owned_cursor := remaining - 1 }
            else st1
          (st2, some removed)

/-- Remaining pool supply carried by entries of one train-type name. -/
def poolSupply (pool : List TrainPoolEntry) (n : String) : Int :=
  ((pool.filter (fun e => e.name == n)).map TrainPoolEntry.remaining).sum

/-- Number of trains of one name owned by a corporation (as an integer, to
sit in the same arithmetic as the pool supply). -/
def ownedOf (corp : Corporation) (n : String) : Int :=
  ((corp.trains.filter (fun t => t.name == n)).length : Int)

/-- Trains of one name owned across all corporations. -/
def ownedSupply (corps : List Corporation) (n : String) : Int :=
  (corps.map (fun corp => ownedOf corp n)).sum

/-- Per-name conserved quantity of claim C4: pool supply plus owned trains of
that name across all corporations. -/
def supplyCount (s : GameSession) (n : String) : Int :=
  poolSupply s.train_pool n + ownedSupply s.corporations n

/-- The per-name original total of the catalog. -/
def typeTotal (types : List TrainType) (n : String) : Int :=
  ((types.filter (fun ty => ty.name == n)).map TrainType.total).sum

/-- A purchase or a retirement, for iterating the C4 invariant. -/
inductive TrainOp where
  | purchase (selection : Nat) : TrainOp
  | rust : TrainOp

/-- Run one train operation for its state effect. -/
def applyTrainOp (st : PlayState) : TrainOp → PlayState
  | TrainOp.purchase selection => st.apply_train_purchase selection
  | TrainOp.rust => st.rust_selected_train.1

/-! ## Theorems

### C10: the train-run stop list is never empty -/

theorem commit_input_values_length (s : TrainRunState) :
    s.commit_input.values.length = s.values.length := by
  unfold TrainRunState.commit_input
  split
  · rfl
  · simp [TrainRunState.set_current_value]

theorem commit_input_cursor (s : TrainRunState) :
    s.commit_input.cursor = s.cursor := by
  unfold TrainRunState.commit_input
  split
  · rfl
  · simp [TrainRunState.set_current_value]

/-- C10: the train-run editor's stop list is created non-empty (a single stop
of 0 when the train has no recorded stops), `remove_stop` on a single
remaining stop resets it to 0 instead of removing it, and every editor
operation preserves `values.len() ≥ 1`. -/
theorem claim_C10 :
    (∀ i n init, 1 ≤ (TrainRunState.new i n init).values.length) ∧
    (∀ i n, (TrainRunState.new i n []).values = [0]) ∧
    (∀ s : TrainRunState, s.values.length = 1 → s.remove_stop.values = [0]) ∧
    (∀ s : TrainRunState, 1 ≤ s.values.length →
      1 ≤ s.commit_input.values.length ∧
      (∀ d, 1 ≤ (s.move_cursor d).values.length) ∧
      1 ≤ s.add_stop.values.length ∧
      1 ≤ s.remove_stop.values.length ∧
      1 ≤ s.clear_current.values.length ∧
      1 ≤ s.backspace.values.length ∧
      (∀ c, 1 ≤ (s.append_digit c).values.length) ∧
      (∀ v, 1 ≤ (s.set_current_value v).values.length)) := by
  refine ⟨?_, ?_, ?_, ?_⟩
  · intro i n init
    unfold TrainRunState.new
    split <;> simp_all [List.isEmpty_iff, Nat.one_le_iff_ne_zero]
  · intro i n
    rfl
  · intro s hs
    have hlen : s.commit_input.values.length = 1 := by
      rw [commit_input_values_length]; exact hs
    unfold TrainRunState.remove_stop
    rw [if_neg (by omega)]
    rcases hv : s.commit_input.values with _ | ⟨x, rest⟩
    · simp [hv] at hlen
    · have : rest = [] := by
        have := hlen
        rw [hv] at this
        simpa using this
      simp [this]
  · intro s hs
    refine ⟨by rw [commit_input_values_length]; exact hs, ?_, ?_, ?_, ?_, ?_, ?_, ?_⟩
    · intro d
      unfold TrainRunState.move_cursor
      have h1 := commit_input_values_length s
      dsimp only
      split <;> simp_all <;> omega
    · unfold TrainRunState.add_stop
      simp
    · unfold TrainRunState.remove_stop
      have h1 := commit_input_values_length s
      dsimp only
      split
      · simp only [List.length_eraseIdx]
        split <;> omega
      · split <;> simp_all
    · unfold TrainRunState.clear_current TrainRunState.set_current_value
      simpa using hs
    · exact hs
    · intro c
      unfold TrainRunState.append_digit
      split <;> exact hs
    · intro v
      unfold TrainRunState.set_current_value
      simpa using hs

/-- Witness for C10 at a concrete editor state. -/
theorem claim_C10_witness :
    ({ train_index := 0, values := [7], cursor := 0, input := "",
       train_name := "2" } : TrainRunState).values.length = 1 ∧
    ({ train_index := 0, values := [7], cursor := 0, input := "",
       train_name := "2" } : TrainRunState).remove_stop.values = [0] :=
  ⟨rfl, claim_C10.2.2.1 _ rfl⟩

/-! ### Save/history lemmas shared by C3 and C7 -/

theorem normalize_inv (p : SavePayload V) : PayloadInv (normalize_history p) := by
  by_cases h0 : p.history.isEmpty
  · have hnil : p.history = [] := List.isEmpty_iff.mp h0
    unfold normalize_history
    simp [hnil, PayloadInv]
  · have hne : p.history ≠ [] := fun h => h0 (by simp [h])
    have hlen : 0 < p.history.length := List.length_pos.mpr hne
    unfold normalize_history
    by_cases h1 : p.history.length ≤ p.history_index
    · obtain ⟨x, hx⟩ : ∃ x, p.history.get? (p.history.length - 1) = some x :=
        ⟨_, List.get?_eq_get (by omega)⟩
      simp only [h0, Bool.false_eq_true, if_false, h1, if_true, hx]
      refine ⟨hne, ?_, hx⟩
      show p.history.length - 1 < p.history.length
      omega
    · obtain ⟨x, hx⟩ : ∃ x, p.history.get? p.history_index = some x :=
        ⟨_, List.get?_eq_get (by omega)⟩
      simp only [h0, Bool.false_eq_true, if_false, h1, if_true, hx]
      refine ⟨hne, ?_, hx⟩
      show p.history_index < p.history.length
      omega

theorem normalize_of_inv {p : SavePayload V} (h : PayloadInv p) :
    normalize_history p = p := by
  obtain ⟨hne, hlt, hget⟩ := h
  have h0 : p.history.isEmpty = false := by
    cases hh : p.history with
    | nil => exact absurd hh hne
    | cons x xs => simp [hh]
  unfold normalize_history
  simp only [h0, Bool.false_eq_true, if_false, Nat.not_le.mpr hlt, hget]

theorem truncate_redo_props (p : SavePayload V) (h : PayloadInv p) :
    PayloadInv (truncate_redo p) ∧
    (truncate_redo p).history_index + 1 = (truncate_redo p).history.length ∧
    (truncate_redo p).history_index = p.history_index ∧
    (truncate_redo p).state = p.state ∧
    (truncate_redo p).history.take (p.history_index + 1) =
      p.history.take (p.history_index + 1) := by
  obtain ⟨hne, hlt, hget⟩ := h
  unfold truncate_redo
  by_cases hc : p.history_index + 1 < p.history.length
  · rw [if_pos hc]
    have hlen : (p.history.take (p.history_index + 1)).length =
        p.history_index + 1 := by
      rw [List.length_take]
      omega
    refine ⟨⟨?_, ?_, ?_⟩, ?_, rfl, rfl, ?_⟩
    · show p.history.take (p.history_index + 1) ≠ []
      intro habs
      rw [habs] at hlen
      simp at hlen
    · show p.history_index < (p.history.take (p.history_index + 1)).length
      omega
    · show (p.history.take (p.history_index + 1)).get? p.history_index = some p.state
      rw [List.get?_take (Nat.lt_succ_self _)]
      exact hget
    · show p.history_index + 1 = (p.history.take (p.history_index + 1)).length
      omega
    · show (p.history.take (p.history_index + 1)).take (p.history_index + 1) =
        p.history.take (p.history_index + 1)
      rw [List.take_take]
      simp
  · rw [if_neg hc]
    exact ⟨⟨hne, hlt, hget⟩, by omega, rfl, rfl, rfl⟩

theorem getLast?_of_tail {p : SavePayload V} (h : PayloadInv p)
    (ht : p.history_index + 1 = p.history.length) :
    p.history.getLast? = some p.state := by
  obtain ⟨hne, hlt, hget⟩ := h
  rw [List.getLast?_eq_get?]
  have : p.history.length - 1 = p.history_index := by omega
  rw [this]
  exact hget

theorem push_state_props [DecidableEq V] (p : SavePayload V) (s : V) :
    PayloadInv (push_state p s) ∧
    (push_state p s).history_index + 1 = (push_state p s).history.length ∧
    (push_state p s).history.getLast? = some s ∧
    (push_state p s).state = s ∧
    (push_state p s).history.take ((normalize_history p).history_index + 1) =
      (normalize_history p).history.take ((normalize_history p).history_index + 1) ∧
    (push_state p s).history.length ≤ (normalize_history p).history_index + 2 := by
  obtain ⟨hinv', htail', hidx', hstate', htake'⟩ :=
    truncate_redo_props (normalize_history p) (normalize_inv p)
  set q := truncate_redo (normalize_history p) with hq
  have hlast' : q.history.getLast? = some q.state := getLast?_of_tail hinv' htail'
  unfold push_state
  dsimp only
  rw [← hq]
  by_cases hc : ((q.history.getLast?).map (fun v => v == s)).getD false
  · have heq : q.state = s := by
      rw [hlast'] at hc
      simpa using hc
    rw [if_pos hc]
    refine ⟨hinv', htail', by rw [hlast', heq], heq, htake', ?_⟩
    omega
  · rw [if_neg hc]
    have hlen : q.history.length = q.history_index + 1 := htail'.symm
    have h1 : (q.history ++ [s]).take (q.history_index + 1) = q.history := by
      rw [← hlen]
      exact List.take_left q.history [s]
    have h2 : q.history.take (q.history_index + 1) = q.history := by
      rw [← hlen]
      simp
    refine ⟨⟨by simp, ?_, ?_⟩, ?_, by simp, rfl, ?_, ?_⟩
    · show (q.history ++ [s]).length - 1 < (q.history ++ [s]).length
      simp only [List.length_append, List.length_singleton]
      omega
    · show (q.history ++ [s]).get? ((q.history ++ [s]).length - 1) = some s
      simp only [List.length_append, List.length_singleton]
      have h3 : q.history.length + 1 - 1 = q.history.length := by omega
      rw [h3]
      exact List.get?_concat_length q.history s
    · show ((q.history ++ [s]).length - 1) + 1 = (q.history ++ [s]).length
      simp only [List.length_append, List.length_singleton]
      omega
    · show (q.history ++ [s]).take ((normalize_history p).history_index + 1) =
        (normalize_history p).history.take ((normalize_history p).history_index + 1)
      rw [← hidx'] at htake' ⊢
      rw [h1, ← h2]
      exact htake'
    · show (q.history ++ [s]).length ≤ (normalize_history p).history_index + 2
      rw [← hidx']
      simp only [List.length_append, List.length_singleton]
      omega

theorem push_state_dedup [DecidableEq V] {p : SavePayload V} {s : V}
    (hinv : PayloadInv p) (htail : p.history_index + 1 = p.history.length)
    (hstate : p.state = s) :
    push_state p s = p := by
  unfold push_state
  rw [normalize_of_inv hinv]
  have ht : truncate_redo p = p := by
    unfold truncate_redo
    rw [if_neg (by omega)]
  rw [ht]
  have hl : p.history.getLast? = some p.state := getLast?_of_tail hinv htail
  rw [if_pos (by simp [hl, hstate])]

theorem push_state_of_ne [DecidableEq V] {p : SavePayload V} {s : V}
    (hinv : PayloadInv p) (htail : p.history_index + 1 = p.history.length)
    (hne : p.state ≠ s) :
    push_state p s = ⟨s, p.history ++ [s], p.history.length⟩ := by
  unfold push_state
  rw [normalize_of_inv hinv]
  have ht : truncate_redo p = p := by
    unfold truncate_redo
    rw [if_neg (by omega)]
  rw [ht]
  have hl : p.history.getLast? = some p.state := getLast?_of_tail hinv htail
  rw [if_neg (by simp [hl, hne])]
  simp

theorem set_history_index_cases (p : SavePayload V) (i : Nat) :
    (set_history_index p i = none ↔ (normalize_history p).history.length ≤ i) ∧
    ∀ q, set_history_index p i = some q → PayloadInv q := by
  obtain ⟨hne, hlt, hget⟩ := normalize_inv p
  unfold set_history_index
  dsimp only
  by_cases h : (normalize_history p).history.length ≤ i
  · rw [if_pos h]
    simp [h]
  · rw [if_neg h]
    obtain ⟨x, hx⟩ : ∃ x, (normalize_history p).history.get? i = some x :=
      ⟨_, List.get?_eq_get (by omega)⟩
    simp only [hx]
    refine ⟨⟨fun hcc => Option.noConfusion hcc, fun hcc => absurd hcc h⟩, ?_⟩
    intro q hq
    have hq2 := Option.some.inj hq
    rw [← hq2]
    refine ⟨hne, ?_, hx⟩
    show i < (normalize_history p).history.length
    omega

/-! ### C7: the save payload invariant -/

/-- C7: after `normalize()` the payload satisfies: non-empty history, cursor
in range, and the denormalized state equals the indexed snapshot; `push_state`
re-establishes the invariant, and `set_history_index` fails exactly when the
requested index is out of range and re-establishes the invariant otherwise. -/
theorem claim_C7 {V : Type} [DecidableEq V] :
    (∀ p : SavePayload V, PayloadInv (normalize_history p)) ∧
    (∀ (p : SavePayload V) (s : V), PayloadInv (push_state p s)) ∧
    (∀ (p : SavePayload V) (i : Nat),
      (set_history_index p i = none ↔ (normalize_history p).history.length ≤ i) ∧
      ∀ q, set_history_index p i = some q → PayloadInv q) :=
  ⟨normalize_inv, fun p s => (push_state_props p s).1, set_history_index_cases⟩

/-- Witness for C7 on a concrete payload. -/
theorem claim_C7_witness :
    PayloadInv (normalize_history (⟨5, [5], 0⟩ : SavePayload Nat)) ∧
    PayloadInv (push_state (⟨5, [5], 0⟩ : SavePayload Nat) 7) ∧
    PayloadInv (⟨5, [5], 0⟩ : SavePayload Nat) :=
  ⟨claim_C7.1 _, claim_C7.2.1 _ 7,
    (claim_C7.2.2 (⟨5, [5], 0⟩ : SavePayload Nat) 0).2 ⟨5, [5], 0⟩ rfl⟩

/-! ### C3: push semantics (truncate, dedup, cursor to tail) -/

/-- C3: `push_state` truncates the redo branch when the cursor is not at the
tail, appends the new state unless it equals the current tail (so a repeated
push leaves the whole payload unchanged), and leaves the cursor on the new
tail; the scripted `push a; push b; set_index(1); push c` run ends with
history `[initial, a, c]`. -/
theorem claim_C3 {V : Type} [DecidableEq V] :
    (∀ (p : SavePayload V) (s : V), push_state (push_state p s) s = push_state p s) ∧
    (∀ (p : SavePayload V) (s : V),
      (push_state p s).history.take ((normalize_history p).history_index + 1) =
        (normalize_history p).history.take ((normalize_history p).history_index + 1) ∧
      (push_state p s).history.length ≤ (normalize_history p).history_index + 2 ∧
      (push_state p s).history_index + 1 = (push_state p s).history.length) ∧
    (∀ s0 a b c : V, a ≠ s0 → b ≠ a → c ≠ a →
      push_state (push_state (newPayload s0) a) b = ⟨b, [s0, a, b], 2⟩ ∧
      set_history_index (push_state (push_state (newPayload s0) a) b) 1 =
        some ⟨a, [s0, a, b], 1⟩ ∧
      (push_state (⟨a, [s0, a, b], 1⟩ : SavePayload V) c).history = [s0, a, c]) := by
  refine ⟨?_, ?_, ?_⟩
  · intro p s
    obtain ⟨hinv, htail, -, hstate, -, -⟩ := push_state_props p s
    exact push_state_dedup hinv htail hstate
  · intro p s
    obtain ⟨-, htail, -, -, htake, hbound⟩ := push_state_props p s
    exact ⟨htake, hbound, htail⟩
  · intro s0 a b c hA hB hC
    have h0 : newPayload s0 = (⟨s0, [s0], 0⟩ : SavePayload V) := rfl
    have inv1 : PayloadInv (⟨s0, [s0], 0⟩ : SavePayload V) := ⟨by simp, by simp, rfl⟩
    have h1 : push_state (⟨s0, [s0], 0⟩ : SavePayload V) a = ⟨a, [s0, a], 1⟩ := by
      have := push_state_of_ne (s := a) inv1 (by simp) (Ne.symm hA)
      simpa using this
    have inv2 : PayloadInv (⟨a, [s0, a], 1⟩ : SavePayload V) := ⟨by simp, by simp, rfl⟩
    have h2 : push_state (⟨a, [s0, a], 1⟩ : SavePayload V) b = ⟨b, [s0, a, b], 2⟩ := by
      have := push_state_of_ne (s := b) inv2 (by simp) (Ne.symm hB)
      simpa using this
    have step12 : push_state (push_state (newPayload s0) a) b = ⟨b, [s0, a, b], 2⟩ := by
      rw [h0, h1, h2]
    have inv3 : PayloadInv (⟨b, [s0, a, b], 2⟩ : SavePayload V) := ⟨by simp, by simp, rfl⟩
    have h3 : set_history_index (⟨b, [s0, a, b], 2⟩ : SavePayload V) 1 =
        some ⟨a, [s0, a, b], 1⟩ := by
      unfold set_history_index
      dsimp only
      rw [normalize_of_inv inv3]
      rfl
    have inv4 : PayloadInv (⟨a, [s0, a, b], 1⟩ : SavePayload V) := ⟨by simp, by simp, rfl⟩
    have h4 : (push_state (⟨a, [s0, a, b], 1⟩ : SavePayload V) c).history = [s0, a, c] := by
      unfold push_state
      dsimp only
      rw [normalize_of_inv inv4]
      have htr : truncate_redo (⟨a, [s0, a, b], 1⟩ : SavePayload V) =
          ⟨a, [s0, a], 1⟩ := by
        unfold truncate_redo
        rw [if_pos (by simp)]
        rfl
      rw [htr]
      rw [if_neg ?_]
      · simp
      · show ¬ ((Option.map (fun v => v == c) ([s0, a].getLast?)).getD false = true)
        have : [s0, a].getLast? = some a := rfl
        rw [this]
        simpa using Ne.symm hC
    exact ⟨step12, by rw [step12]; exact h3, h4⟩

/-- Witness for C3's scripted scenario at concrete states. -/
theorem claim_C3_witness :
    push_state (push_state (newPayload (0 : Nat)) 1) 2 = ⟨2, [0, 1, 2], 2⟩ ∧
    set_history_index (push_state (push_state (newPayload (0 : Nat)) 1) 2) 1 =
      some ⟨1, [0, 1, 2], 1⟩ ∧
    (push_state (⟨1, [0, 1, 2], 1⟩ : SavePayload Nat) 3).history = [0, 1, 3] :=
  claim_C3.2.2 (0 : Nat) 1 2 3 (by decide) (by decide) (by decide)

/-! ### Corporation focus lemmas shared by C1, C5 and C9 -/

theorem current_corporation_with {st : PlayState} {corp : Corporation}
    (corp' : Corporation) (h : st.current_corporation = some corp) :
    (st.with_corporation corp').current_corporation = some corp' := by
  unfold PlayState.current_corporation PlayState.with_corporation at *
  dsimp only
  rw [List.get?_set_eq, h]
  rfl

theorem with_corporation_get?_ne (st : PlayState) (corp' : Corporation) (j : Nat)
    (h : j ≠ st.corporation_index) :
    (st.with_corporation corp').session.corporations.get? j =
      st.session.corporations.get? j := by
  unfold PlayState.with_corporation
  dsimp only
  exact List.get?_set_ne _ _ (Ne.symm h)

/-! ### Concrete fixtures for witnesses and counterexamples -/

/-- `Corporation::new` (crates/core/src/session/models.rs). -/
def Corporation.new (sym name : String) (color text_color : Option String) :
    Corporation :=
  { sym := sym, name := name, color := color, text_color := text_color,
    par_value := none, market_position := none, trains := [], last_revenue := 0 }

/-- A `GameSession` as `SessionLoader::build_session` produces it: derived
market cell index and par list, one full pool entry per train type. -/
def mkLoadedSession (m : List (List String)) (corps : List Corporation)
    (types : List TrainType) : GameSession :=
  { corporations := corps, market := m,
    market_cells := collect_market_cells m,
    par_cells := available_par_cells_from (collect_market_cells m),
    train_types := types,
    train_pool := types.map (fun ty => { name := ty.name, remaining := ty.total }) }

/-- A play state over a loaded session with everything else at its initial
value (cursor position and mode overridable by structure update). -/
def basePlayState (s : GameSession) : PlayState :=
  { session := s, corporation_index := 0, market_cursor := (0, 0),
    mode := PlayMode.Idle, train_focus := TrainFocus.Pool, train_pool_cursor := 0,
    train_owned_cursor := 0, train_run := none, phases := [], phase_index := 0,
    phase_rounds := [], revenue_cursor_corp := 0, revenue_cursor_or := 0 }

def demoCorp : Corporation := Corporation.new "PRR" "Pennsylvania" none none

/-! ### C9: price selection is a frame-preserving position update -/

/-- C9: confirming in `PriceSelect` mode with the cursor on a valid cell sets
only the focused corporation's `market_position` (taken from the cell) and
leaves `par_value` and every other corporation field unchanged; other
corporations are untouched. -/
theorem claim_C9 (st : PlayState) (cell : MarketCell) (corp : Corporation)
    (hmode : st.mode = PlayMode.PriceSelect)
    (hcell : st.current_market_cell = some cell)
    (hcorp : st.current_corporation = some corp) :
    ∃ st', st.apply_price_selection = some (st', cell_to_position cell) ∧
      st'.current_corporation =
        some { corp with market_position := some (cell_to_position cell) } ∧
      (∀ corp', st'.current_corporation = some corp' →
        corp'.par_value = corp.par_value ∧ corp'.sym = corp.sym ∧
        corp'.name = corp.name ∧ corp'.color = corp.color ∧
        corp'.text_color = corp.text_color ∧ corp'.trains = corp.trains ∧
        corp'.last_revenue = corp.last_revenue ∧
        corp'.market_position = some (cell_to_position cell)) ∧
      (∀ j, j ≠ st.corporation_index →
        st'.session.corporations.get? j = st.session.corporations.get? j) ∧
      st'.mode = PlayMode.Idle := by
  unfold PlayState.apply_price_selection
  rw [hcell]
  dsimp only
  rw [hcorp]
  refine ⟨_, rfl, ?_, ?_, ?_, rfl⟩
  · show (st.with_corporation _).current_corporation = _
    exact current_corporation_with _ hcorp
  · intro corp' h
    have h1 : (st.with_corporation
        { corp with market_position := some (cell_to_position cell) }).current_corporation =
        some { corp with market_position := some (cell_to_position cell) } :=
      current_corporation_with _ hcorp
    have h2 : corp' = { corp with market_position := some (cell_to_position cell) } := by
      have h3 : st.current_market_cell = some cell := hcell
      rw [show ({ st.with_corporation
          { corp with market_position := some (cell_to_position cell) }
          with mode := PlayMode.Idle } : PlayState).current_corporation =
        (st.with_corporation
          { corp with market_position := some (cell_to_position cell) }).current_corporation
        from rfl] at h
      rw [h1] at h
      exact (Option.some.inj h).symm
    rw [h2]
    exact ⟨rfl, rfl, rfl, rfl, rfl, rfl, rfl, rfl⟩
  · intro j hj
    exact with_corporation_get?_ne st _ j hj

/-- Witness for C9 on a two-cell market row. -/
theorem claim_C9_witness :
    ∃ st', ({ basePlayState (mkLoadedSession [["40", "50"]] [demoCorp] []) with
        market_cursor := (0, 1), mode := PlayMode.PriceSelect } :
          PlayState).apply_price_selection =
      some (st', cell_to_position (mkMarketCell 0 1 "50")) ∧
      st'.mode = PlayMode.Idle := by
  obtain ⟨st', h1, -, -, -, h5⟩ :=
    claim_C9 ({ basePlayState (mkLoadedSession [["40", "50"]] [demoCorp] []) with
        market_cursor := (0, 1), mode := PlayMode.PriceSelect })
      (mkMarketCell 0 1 "50") demoCorp rfl (by decide) rfl
  exact ⟨st', h1, h5⟩

/-! ### C5: par selection -/

/-- The scenario state of C5: market row `["100", "110p", "125p"]`, one fresh
corporation, mode `Idle`, cursor at the row start. -/
def parScenarioState : PlayState :=
  basePlayState (mkLoadedSession [["100", "110p", "125p"]] [demoCorp] [])

/-- C5: confirming in `ParSelect` mode with the cursor on a valid cell sets
the focused corporation's `par_value` to the cell's numeric value (0 when the
cell is non-numeric) and its `market_position` to that cell, and returns to
`Idle`; on the scenario row `["100", "110p", "125p"]` entering `ParSelect`
snaps the cursor to column 1 and confirming yields `par_value = 110` and
`market_position = (0, 1)`. -/
theorem claim_C5 :
    (∀ (st : PlayState) (cell : MarketCell) (corp : Corporation),
      st.mode = PlayMode.ParSelect →
      st.current_market_cell = some cell →
      st.current_corporation = some corp →
      ∃ st', st.apply_par_selection = some (st', cell.value.getD 0) ∧
        st'.current_corporation = some { corp with
          par_value := some (cell.value.getD 0),
          market_position := some (cell_to_position cell) } ∧
        st'.mode = PlayMode.Idle) ∧
    ((parScenarioState.enter_par_select).1.market_cursor = (0, 1) ∧
     (parScenarioState.enter_par_select).1.mode = PlayMode.ParSelect ∧
     ∃ st', (parScenarioState.enter_par_select).1.apply_par_selection =
         some (st', 110) ∧
       (st'.current_corporation.map Corporation.par_value) = some (some 110) ∧
       ((st'.current_corporation.bind Corporation.market_position).map
         (fun p => (p.row, p.col))) = some (0, 1)) := by
  constructor
  · intro st cell corp hmode hcell hcorp
    unfold PlayState.apply_par_selection
    rw [hcell]
    dsimp only
    rw [hcorp]
    refine ⟨_, rfl, ?_, rfl⟩
    show (st.with_corporation _).current_corporation = _
    exact current_corporation_with _ hcorp
  · refine ⟨rfl, rfl, _, rfl, rfl, rfl⟩

/-- Witness for C5's general confirmation clause, applied right after the
scenario's `ParSelect` entry. -/
theorem claim_C5_witness :
    ∃ st', (parScenarioState.enter_par_select).1.apply_par_selection =
        some (st', (110 : Int)) ∧ st'.mode = PlayMode.Idle := by
  obtain ⟨st', h1, -, h3⟩ := claim_C5.1 (parScenarioState.enter_par_select).1
    (mkMarketCell 0 1 "110p") demoCorp rfl (by decide) rfl
  exact ⟨st', h1, h3⟩

/-! ### C8: add_operating_round -/

/-- A state with a loaded game that has no corporations: one phase worth two
operating rounds, the round matrix already at capacity. -/
def zeroCorpState : PlayState :=
  { basePlayState (mkLoadedSession [["10"]] [] []) with
      phases := [{ name := "2", operating_rounds := 2, raw := JsonVal.null }],
      phase_rounds := [[OperatingRound.new 0, OperatingRound.new 0]] }

/-- Counterexample to C8 as stated: with zero corporations,
`add_operating_round()` is an early-return no-op, so
`current_phase_rounds().len()` does not increase by 1. -/
theorem claim_C8_counterexample :
    zeroCorpState.add_operating_round.current_phase_rounds.length =
      zeroCorpState.current_phase_rounds.length ∧
    zeroCorpState.current_phase_rounds.length = 2 ∧
    zeroCorpState.session.corporations = [] :=
  ⟨rfl, rfl, rfl⟩

theorem desired_rounds_pos (st : PlayState) (i : Nat) : 1 ≤ st.desired_rounds i := by
  unfold PlayState.desired_rounds
  cases st.phases.get? i with
  | none => exact Nat.le_refl 1
  | some phase => exact Nat.le_max_right _ _

/-- C8 (amended): when at least one corporation exists and the current
phase's round list has already been grown to the phase's minimum round count
(true of every state the app constructs), `add_operating_round()` grows
`current_phase_rounds()` by exactly one round whose revenue vector is all
zeros with length equal to the corporation count; with zero corporations it
is a no-op. -/
theorem claim_C8 (st : PlayState)
    (hcorp : 1 ≤ st.session.corporations.length)
    (hcap : st.desired_rounds st.current_phase_index ≤
      ((st.phase_rounds.get? st.current_phase_index).getD []).length) :
    st.add_operating_round.current_phase_rounds.length =
      st.current_phase_rounds.length + 1 ∧
    st.add_operating_round.current_phase_rounds.getLast? =
      some (OperatingRound.new st.session.corporations.length) ∧
    (OperatingRound.new st.session.corporations.length).revenues =
      List.replicate st.session.corporations.length 0 ∧
    ∀ x ∈ (OperatingRound.new st.session.corporations.length).revenues, x = 0 := by
  have hd1 : 1 ≤ st.desired_rounds st.current_phase_index :=
    desired_rounds_pos st _
  set idx := st.current_phase_index with hidx
  obtain ⟨rounds0, hr0⟩ : ∃ r, st.phase_rounds.get? idx = some r := by
    cases hg : st.phase_rounds.get? idx with
    | none => rw [hg] at hcap; simp at hcap; omega
    | some r => exact ⟨r, rfl⟩
  have hlen0 : st.desired_rounds idx ≤ rounds0.length := by
    rw [hr0] at hcap
    simpa using hcap
  have hne0 : rounds0.isEmpty = false := by
    cases hr : rounds0 with
    | nil => rw [hr] at hlen0; simp at hlen0; omega
    | cons a l => simp [hr]
  have hidxlt : idx < st.phase_rounds.length := by
    by_contra hcon
    rw [List.get?_eq_none.mpr (by omega)] at hr0
    exact Option.noConfusion hr0
  -- the padded list is the original one
  have hpad : st.phase_rounds ++
      List.replicate (idx + 1 - st.phase_rounds.length) [] = st.phase_rounds := by
    have : idx + 1 - st.phase_rounds.length = 0 := by omega
    rw [this]
    simp
  have hcc : st.session.corporations.length ≠ 0 := by omega
  -- compute the ensured state
  set rounds1 := rounds0.map (fun round =>
    if round.revenues.length < st.session.corporations.length then
      ({ revenues := round.revenues ++
          List.replicate (st.session.corporations.length - round.revenues.length) 0 }
        : OperatingRound)
    else round) with hr1
  have hens : st.ensure_phase_round_capacity idx =
      { st with phase_rounds := st.phase_rounds.set idx rounds1 } := by
    unfold PlayState.ensure_phase_round_capacity
    dsimp only
    rw [hpad, hr0]
    dsimp only [Option.getD_some]
    rw [if_neg (show ¬ (rounds0.isEmpty = true) by simp [hne0])]
    rw [if_neg (by omega)]
  have hlen1 : rounds1.length = rounds0.length := by
    rw [hr1]; simp
  -- unfold add_operating_round
  unfold PlayState.add_operating_round
  dsimp only
  rw [if_neg hcc, ← hidx, hens]
  dsimp only
  have hget1 : (st.phase_rounds.set idx rounds1).get? idx = some rounds1 := by
    rw [List.get?_set_eq, hr0]
    rfl
  rw [hget1]
  dsimp only [Option.getD_some]
  have hget2 : ∀ r2 : List OperatingRound,
      (({ st with phase_rounds :=
          (st.phase_rounds.set idx rounds1).set idx r2, revenue_cursor_or :=
          r2.length - 1 } : PlayState)).current_phase_rounds = r2 := by
    intro r2
    show ((((st.phase_rounds.set idx rounds1).set idx r2).get? idx).getD []) = r2
    rw [List.get?_set_eq, List.get?_set_eq, hr0]
    rfl
  rw [hget2]
  have hcur : st.current_phase_rounds = rounds0 := by
    unfold PlayState.current_phase_rounds
    rw [← hidx, hr0]
    rfl
  refine ⟨?_, ?_, rfl, ?_⟩
  · rw [hcur]
    simp [hlen1]
  · exact List.getLast?_concat _
  · intro x hx
    unfold OperatingRound.new at hx
    exact List.eq_of_mem_replicate hx

/-- Witness for C8 (amended) on a one-corporation state at capacity. -/
theorem claim_C8_witness :
    ∃ st : PlayState, 1 ≤ st.session.corporations.length ∧
      st.add_operating_round.current_phase_rounds.length =
        st.current_phase_rounds.length + 1 ∧
      st.add_operating_round.current_phase_rounds.getLast? =
        some (OperatingRound.new st.session.corporations.length) := by
  refine ⟨{ basePlayState (mkLoadedSession [["10"]] [demoCorp] []) with
      phases := [{ name := "2", operating_rounds := 2, raw := JsonVal.null }],
      phase_rounds := [[OperatingRound.new 1, OperatingRound.new 1]] }, ?_, ?_, ?_⟩
  · exact Nat.le_refl 1
  all_goals {
    obtain ⟨h1, h2, -, -⟩ := claim_C8
      ({ basePlayState (mkLoadedSession [["10"]] [demoCorp] []) with
        phases := [{ name := "2", operating_rounds := 2, raw := JsonVal.null }],
        phase_rounds := [[OperatingRound.new 1, OperatingRound.new 1]] })
      (by decide) (by decide)
    first
    | exact h1
    | exact h2
  }

/-! ### C1: dividend / withhold price movement -/

theorem offset_right (st : PlayState) (p : MarketPosition) :
    st.offset_market_position p (0, 1) =
      (st.session.market_cell p.row (p.col + 1)).map cell_to_position := by
  unfold PlayState.offset_market_position
  dsimp only
  rw [if_neg (by omega)]
  have h1 : ((p.row : Int) + 0).toNat = p.row := by omega
  have h2 : ((p.col : Int) + 1).toNat = p.col + 1 := by omega
  rw [h1, h2]

theorem offset_left (st : PlayState) (p : MarketPosition) :
    st.offset_market_position p (0, -1) =
      (if p.col = 0 then none
       else (st.session.market_cell p.row (p.col - 1)).map cell_to_position) := by
  unfold PlayState.offset_market_position
  dsimp only
  by_cases h : p.col = 0
  · rw [if_pos (by omega), if_pos h]
  · rw [if_neg (by omega), if_neg h]
    have h1 : ((p.row : Int) + 0).toNat = p.row := by omega
    have h2 : ((p.col : Int) + (-1)).toNat = p.col - 1 := by omega
    rw [h1, h2]

theorem offset_up (st : PlayState) (p : MarketPosition) :
    st.offset_market_position p (-1, 0) =
      (if p.row = 0 then none
       else (st.session.market_cell (p.row - 1) p.col).map cell_to_position) := by
  unfold PlayState.offset_market_position
  dsimp only
  by_cases h : p.row = 0
  · rw [if_pos (by omega), if_pos h]
  · rw [if_neg (by omega), if_neg h]
    have h1 : ((p.row : Int) + (-1)).toNat = p.row - 1 := by omega
    have h2 : ((p.col : Int) + 0).toNat = p.col := by omega
    rw [h1, h2]

theorem offset_down (st : PlayState) (p : MarketPosition) :
    st.offset_market_position p (1, 0) =
      (st.session.market_cell (p.row + 1) p.col).map cell_to_position := by
  unfold PlayState.offset_market_position
  dsimp only
  rw [if_neg (by omega)]
  have h1 : ((p.row : Int) + 1).toNat = p.row + 1 := by omega
  have h2 : ((p.col : Int) + 0).toNat = p.col := by omega
  rw [h1, h2]

/-- A corporation whose token sits at `(1, 0)` of the two-row, one-column
market `[["40"], ["50"]]`: no cell exists to its right or below it. -/
def divCorp : Corporation :=
  { demoCorp with
      market_position := some { row := 1, col := 0, value := some 50, raw := "50" } }

def divScenarioState : PlayState :=
  basePlayState (mkLoadedSession [["40"], ["50"]] [divCorp] [])

/-- Counterexample to C1 as stated: at `(1, 0)` of `[["40"], ["50"]]` there is
no cell to the right and no cell one row below, so by the claim a `Dividend`
would leave the token in place — but the code moves it one row *up*, to
`(0, 0)`. -/
theorem claim_C1_counterexample :
    divScenarioState.session.market_cell 1 1 = none ∧
    divScenarioState.session.market_cell 2 0 = none ∧
    ∃ st' out, divScenarioState.apply_revenue_action RevenueAction.Dividend =
        Except.ok (st', out) ∧ out.moved = true ∧
      (st'.current_corporation.bind Corporation.market_position).map
        (fun p => (p.row, p.col)) = some (0, 0) := by
  refine ⟨by decide, by decide, _, _, rfl, rfl, by decide⟩

/-- C1 (amended): `apply_revenue_action` fails with `NoCorporation` without a
focused corporation and with `NoMarketPosition` when it lacks a market
position; `Dividend` moves the token one column right, falling back to one row
*up* (towards row 0); `Withhold` moves one column left, falling back to one
row *down*; when neither neighbour cell exists the token stays and the action
still reports the unchanged revenue total and the current price label. -/
theorem claim_C1 (st : PlayState) :
    (st.current_corporation = none →
      ∀ action, st.apply_revenue_action action =
        Except.error RevenueError.NoCorporation) ∧
    (∀ corp, st.current_corporation = some corp → corp.market_position = none →
      ∀ action, st.apply_revenue_action action =
        Except.error RevenueError.NoMarketPosition) ∧
    (∀ corp p, st.current_corporation = some corp →
      corp.market_position = some p →
      (∀ cell, st.session.market_cell p.row (p.col + 1) = some cell →
        st.apply_revenue_action RevenueAction.Dividend = Except.ok
          (st.with_corporation
            { corp with market_position := some (cell_to_position cell) },
           { corp_sym := corp.sym, total := corp.last_revenue,
             price_label := display_price_label cell.raw, moved := true,
             action := RevenueAction.Dividend })) ∧
      (st.session.market_cell p.row (p.col + 1) = none →
        ∀ cell, 1 ≤ p.row → st.session.market_cell (p.row - 1) p.col = some cell →
        st.apply_revenue_action RevenueAction.Dividend = Except.ok
          (st.with_corporation
            { corp with market_position := some (cell_to_position cell) },
           { corp_sym := corp.sym, total := corp.last_revenue,
             price_label := display_price_label cell.raw, moved := true,
             action := RevenueAction.Dividend })) ∧
      (st.session.market_cell p.row (p.col + 1) = none →
        (p.row = 0 ∨ st.session.market_cell (p.row - 1) p.col = none) →
        st.apply_revenue_action RevenueAction.Dividend = Except.ok
          (st, { corp_sym := corp.sym, total := corp.last_revenue,
                 price_label := display_price_label p.raw, moved := false,
                 action := RevenueAction.Dividend })) ∧
      (∀ cell, 1 ≤ p.col → st.session.market_cell p.row (p.col - 1) = some cell →
        st.apply_revenue_action RevenueAction.Withhold = Except.ok
          (st.with_corporation
            { corp with market_position := some (cell_to_position cell) },
           { corp_sym := corp.sym, total := corp.last_revenue,
             price_label := display_price_label cell.raw, moved := true,
             action := RevenueAction.Withhold })) ∧
      ((p.col = 0 ∨ st.session.market_cell p.row (p.col - 1) = none) →
        ∀ cell, st.session.market_cell (p.row + 1) p.col = some cell →
        st.apply_revenue_action RevenueAction.Withhold = Except.ok
          (st.with_corporation
            { corp with market_position := some (cell_to_position cell) },
           { corp_sym := corp.sym, total := corp.last_revenue,
             price_label := display_price_label cell.raw, moved := true,
             action := RevenueAction.Withhold })) ∧
      ((p.col = 0 ∨ st.session.market_cell p.row (p.col - 1) = none) →
        st.session.market_cell (p.row + 1) p.col = none →
        st.apply_revenue_action RevenueAction.Withhold = Except.ok
          (st, { corp_sym := corp.sym, total := corp.last_revenue,
                 price_label := display_price_label p.raw, moved := false,
                 action := RevenueAction.Withhold }))) := by
  refine ⟨?_, ?_, ?_⟩
  · intro hnone action
    unfold PlayState.apply_revenue_action
    rw [hnone]
  · intro corp hcorp hpos action
    unfold PlayState.apply_revenue_action
    rw [hcorp]
    try dsimp only
    rw [hpos]
  · intro corp p hcorp hpos
    have hmoved : ∀ cell,
        (st.with_corporation
          { corp with market_position := some (cell_to_position cell)
          }).current_corporation.bind Corporation.market_position =
          some (cell_to_position cell) := by
      intro cell
      rw [current_corporation_with _ hcorp]
      rfl
    refine ⟨?_, ?_, ?_, ?_, ?_, ?_⟩
    · intro cell hcell
      unfold PlayState.apply_revenue_action
      rw [hcorp]
      try dsimp only
      rw [hpos]
      try dsimp only
      rw [offset_right, hcell]
      try simp only [Option.map_some, Option.map_some']
      rw [show (Option.orElse (some (cell_to_position cell)) fun _ =>
          st.offset_market_position p (-1, 0)) = some (cell_to_position cell)
        from rfl]
      try dsimp only
      rw [hmoved]
      rfl
    · intro hright cell hrow hup
      unfold PlayState.apply_revenue_action
      rw [hcorp]
      try dsimp only
      rw [hpos]
      try dsimp only
      rw [offset_right, hright]
      try simp only [Option.map_none, Option.map_none']
      rw [offset_up, if_neg (by omega), hup]
      try simp only [Option.map_some, Option.map_some']
      rw [show (Option.orElse none fun _ => some (cell_to_position cell)) =
          some (cell_to_position cell) from rfl]
      try dsimp only
      rw [hmoved]
      rfl
    · intro hright hup
      unfold PlayState.apply_revenue_action
      rw [hcorp]
      try dsimp only
      rw [hpos]
      try dsimp only
      rw [offset_right, hright]
      try simp only [Option.map_none, Option.map_none']
      have hupn : (if p.row = 0 then none
          else (st.session.market_cell (p.row - 1) p.col).map cell_to_position) =
          (none : Option MarketPosition) := by
        rcases hup with h | h
        · rw [if_pos h]
        · split
          · rfl
          · rw [h]
            rfl
      rw [offset_up, hupn]
      rw [show (Option.orElse (none : Option MarketPosition) fun _ =>
          (none : Option MarketPosition)) = none from rfl]
      try dsimp only
      rw [hcorp]
      simp only [Option.some_bind]
      rw [hpos]
      rfl
    · intro cell hcol hleft
      unfold PlayState.apply_revenue_action
      rw [hcorp]
      try dsimp only
      rw [hpos]
      try dsimp only
      rw [offset_left, if_neg (by omega), hleft]
      try simp only [Option.map_some, Option.map_some']
      rw [show (Option.orElse (some (cell_to_position cell)) fun _ =>
          st.offset_market_position p (1, 0)) = some (cell_to_position cell)
        from rfl]
      try dsimp only
      rw [hmoved]
      rfl
    · intro hleft cell hdown
      unfold PlayState.apply_revenue_action
      rw [hcorp]
      try dsimp only
      rw [hpos]
      try dsimp only
      have hleftn : (if p.col = 0 then none
          else (st.session.market_cell p.row (p.col - 1)).map cell_to_position) =
          (none : Option MarketPosition) := by
        rcases hleft with h | h
        · rw [if_pos h]
        · split
          · rfl
          · rw [h]
            rfl
      rw [offset_left, hleftn]
      rw [offset_down, hdown]
      try simp only [Option.map_some, Option.map_some']
      rw [show (Option.orElse (none : Option MarketPosition) fun _ =>
          some (cell_to_position cell)) = some (cell_to_position cell) from rfl]
      try dsimp only
      rw [hmoved]
      rfl
    · intro hleft hdown
      unfold PlayState.apply_revenue_action
      rw [hcorp]
      try dsimp only
      rw [hpos]
      try dsimp only
      have hleftn : (if p.col = 0 then none
          else (st.session.market_cell p.row (p.col - 1)).map cell_to_position) =
          (none : Option MarketPosition) := by
        rcases hleft with h | h
        · rw [if_pos h]
        · split
          · rfl
          · rw [h]
            rfl
      rw [offset_left, hleftn]
      rw [offset_down, hdown]
      try simp only [Option.map_none, Option.map_none']
      rw [show (Option.orElse (none : Option MarketPosition) fun _ =>
          (none : Option MarketPosition)) = none from rfl]
      try dsimp only
      rw [hcorp]
      simp only [Option.some_bind]
      rw [hpos]
      rfl

/-- A corporation whose token sits at `(0, 0)` of `[["40", "50"]]`. -/
def rightCorp : Corporation :=
  { demoCorp with
      market_position := some { row := 0, col := 0, value := some 40, raw := "40" } }

def rightScenarioState : PlayState :=
  basePlayState (mkLoadedSession [["40", "50"]] [rightCorp] [])

/-- Witness for C1 (amended): a corporation at `(0, 0)` of `[["40", "50"]]`
pays a dividend and its token moves right to `(0, 1)`. -/
theorem claim_C1_witness :
    ∃ st' out,
      rightScenarioState.apply_revenue_action RevenueAction.Dividend =
        Except.ok (st', out) ∧ out.moved = true ∧
      out.price_label = display_price_label "50" := by
  obtain ⟨hdiv, -, -, -, -, -⟩ := (claim_C1 rightScenarioState).2.2 rightCorp
    ({ row := 0, col := 0, value := some 40, raw := "40" }) rfl rfl
  refine ⟨_, _, hdiv (mkMarketCell 0 1 "50") (by decide), rfl, rfl⟩

/-! ### C6: cursor-movement tie-break rules -/

theorem tmod_wrap (x l : Int) (hl : 0 < l) :
    ((x.tmod l) + l).tmod l = x.emod l := by
  have hlow : -l < x.tmod l := by
    rcases le_or_lt 0 x with hx | hx
    · have h := Int.tmod_nonneg l hx
      omega
    · have h1 : x.tmod l = -((-x).tmod l) := by
        rw [Int.tmod_def, Int.tmod_def, Int.neg_tdiv]
        ring
      have h2 : (-x).tmod l < l := Int.tmod_lt_of_pos _ hl
      omega
  have hnn : (0 : Int) ≤ x.tmod l + l := by omega
  rw [Int.tmod_eq_emod hnn (by omega)]
  have h3 : (x.tmod l + l) % l = (x.tmod l) % l := by
    conv_lhs => rw [show x.tmod l + l = x.tmod l + l * 1 by ring]
    exact Int.add_mul_emod_self_left _ _ _
  rw [h3]
  have h4 : x.tmod l = x + l * (-(x.tdiv l)) := by
    rw [Int.tmod_def]
    ring
  rw [h4]
  exact Int.add_mul_emod_self_left _ _ _

/-- C6: on a one-row grid, horizontal movement wraps the column circularly
modulo the row length; on taller grids a row transition landing outside the
new row's columns is clamped to the rightmost column (while a purely
horizontal overrun breaks instead of wrapping), empty rows are stepped over,
and the candidate scan stops once its `rows × max-row-length` budget is
spent. -/
theorem claim_C6 :
    (∀ (st : PlayState) (rowDelta colDelta : Int),
      st.session.market.length = 1 →
      marketRowLen st.session.market 0 ≠ 0 →
      colDelta ≠ 0 →
      (st.move_market_cursor rowDelta colDelta).market_cursor =
        (0, (((st.market_cursor.2 : Int) + colDelta).emod
          (marketRowLen st.session.market 0 : Int)).toNat)) ∧
    (∀ (rowLen : Nat) (rowDelta col : Int), rowLen ≠ 0 → rowDelta ≠ 0 →
      (rowLen : Int) ≤ col →
      candidateCol rowLen rowDelta col = some ((rowLen - 1 : Nat) : Int)) ∧
    (∀ (rowLen : Nat) (col : Int), (rowLen : Int) ≤ col →
      candidateCol rowLen 0 col = none) ∧
    (∀ (st : PlayState) (rowDelta colDelta : Int) (maxAttempts fuel : Nat)
       (row0 col0 : Int) (attempts0 : Nat),
      ¬ (row0 + rowDelta < 0) →
      row0 + rowDelta < (st.session.market.length : Int) →
      marketRowLen st.session.market (row0 + rowDelta).toNat = 0 →
      moveLoopAux st rowDelta colDelta maxAttempts (fuel + 1) row0 col0 attempts0 =
        moveLoopAux st rowDelta colDelta maxAttempts fuel (row0 + rowDelta)
          (col0 + colDelta) (attempts0 + 1)) ∧
    (∀ (st : PlayState) (rowDelta colDelta : Int) (maxAttempts fuel : Nat)
       (row0 col0 : Int) (attempts0 : Nat) (col1 : Int),
      ¬ (row0 + rowDelta < 0) →
      row0 + rowDelta < (st.session.market.length : Int) →
      marketRowLen st.session.market (row0 + rowDelta).toNat ≠ 0 →
      candidateCol (marketRowLen st.session.market (row0 + rowDelta).toNat)
        rowDelta (col0 + colDelta) = some col1 →
      st.session.market_cell (row0 + rowDelta).toNat col1.toNat = none →
      maxAttempts < attempts0 + 1 →
      moveLoopAux st rowDelta colDelta maxAttempts (fuel + 1) row0 col0 attempts0 =
        none) ∧
    (∀ st : PlayState, 1 ≤ st.session.market.length → 1 ≤ st.max_market_columns →
      Nat.max (st.session.market.length * Nat.max st.max_market_columns 1) 1 =
        st.session.market.length * st.max_market_columns) := by
  refine ⟨?_, ?_, ?_, ?_, ?_, ?_⟩
  · intro st rowDelta colDelta h1 h2 h3
    unfold PlayState.move_market_cursor
    rw [if_neg (by intro h; exact h3 h.2)]
    rw [if_neg (by simp [List.isEmpty_iff]; intro h; rw [h] at h1; simp at h1)]
    rw [if_pos h1]
    dsimp only
    rw [if_neg h2, if_neg h3]
    dsimp only
    rw [tmod_wrap _ _ (by omega)]
  · intro rowLen rowDelta col h1 h2 h3
    unfold candidateCol
    rw [if_pos (Or.inr h3), if_neg h2]
  · intro rowLen col h
    unfold candidateCol
    rw [if_pos (Or.inr h), if_pos rfl]
  · intro st rowDelta colDelta maxAttempts fuel row0 col0 attempts0 h1 h2 h3
    show (if row0 + rowDelta < 0 then none else _) = _
    rw [if_neg h1, if_neg (by omega), if_pos h3]
  · intro st rowDelta colDelta maxAttempts fuel row0 col0 attempts0 col1 h1 h2 h3 h4 h5 h6
    show (if row0 + rowDelta < 0 then none else _) = _
    rw [if_neg h1, if_neg (by omega), if_neg h3, h4]
    dsimp only
    rw [h5]
    dsimp only
    rw [if_pos h6]
  · intro st hr hm
    have h1 : Nat.max st.max_market_columns 1 = st.max_market_columns :=
      Nat.max_eq_left hm
    rw [h1]
    exact Nat.max_eq_left (Nat.mul_le_mul hr hm)

/-- Witness for C6 at concrete grids: a one-row wrap, a clamped row
transition, a skipped empty row and an exhausted scan budget. -/
theorem claim_C6_witness :
    (({ basePlayState (mkLoadedSession [["10", "20"]] [] []) with
        market_cursor := (0, 1) } : PlayState).move_market_cursor 0 1).market_cursor =
      (0, (((1 : Int) + 1).emod (2 : Int)).toNat) ∧
    candidateCol 3 1 5 = some 2 ∧
    candidateCol 3 0 5 = none ∧
    moveLoopAux (basePlayState (mkLoadedSession [[], ["10"]] [] [])) (-1) 0 5 2 1 0 0 =
      moveLoopAux (basePlayState (mkLoadedSession [[], ["10"]] [] [])) (-1) 0 5 1 0 0 1 ∧
    moveLoopAux (basePlayState (mkLoadedSession [["10"], ["  "]] [] [])) 1 0 0 3 0 0 0 =
      none := by
  refine ⟨?_, ?_, ?_, ?_, ?_⟩
  · exact claim_C6.1 _ 0 1 rfl (by decide) (by decide)
  · exact claim_C6.2.1 3 1 5 (by decide) (by decide) (by decide)
  · exact claim_C6.2.2.1 3 5 (by decide)
  · exact claim_C6.2.2.2.1 _ (-1) 0 5 1 1 0 0 (by decide) (by decide) (by decide)
  · exact claim_C6.2.2.2.2.1 _ 1 0 0 2 0 0 0 0 (by decide) (by decide) (by decide)
      (by decide) (by decide) (by decide)

/-! ### C2: cursor safety lemmas -/

theorem mem_collect_row_cells {ri : Nat} {cell : MarketCell} :
    ∀ {ci : Nat} {row : List String},
      cell ∈ collect_row_cells ri ci row ↔
        ∃ j raw, row.get? j = some raw ∧ strTrim raw ≠ "" ∧
          cell = mkMarketCell ri (ci + j) raw := by
  intro ci row
  induction row generalizing ci with
  | nil => simp [collect_row_cells]
  | cons raw rest ih =>
    unfold collect_row_cells
    rw [List.mem_append]
    constructor
    · rintro (h | h)
      · by_cases ht : strTrim raw = ""
        · rw [if_pos ht] at h
          simp at h
        · rw [if_neg ht] at h
          simp only [List.mem_singleton] at h
          exact ⟨0, raw, rfl, ht, by simpa using h⟩
      · obtain ⟨j, raw', h1, h2, h3⟩ := ih.mp h
        refine ⟨j + 1, raw', by simpa using h1, h2, ?_⟩
        rw [h3]
        congr 1
        omega
    · rintro ⟨j, raw', h1, h2, h3⟩
      cases j with
      | zero =>
        left
        simp only [List.get?] at h1
        obtain rfl : raw' = raw := by injection h1 with h; exact h.symm
        rw [if_neg h2]
        simp only [List.mem_singleton]
        simpa using h3
      | succ j =>
        right
        refine ih.mpr ⟨j, raw', by simpa using h1, h2, ?_⟩
        rw [h3]
        congr 1
        omega

theorem mem_collect_cells_from {cell : MarketCell} :
    ∀ {ri : Nat} {rows : List (List String)},
      cell ∈ collect_cells_from ri rows ↔
        ∃ i j row raw, rows.get? i = some row ∧ row.get? j = some raw ∧
          strTrim raw ≠ "" ∧ cell = mkMarketCell (ri + i) j raw := by
  intro ri rows
  induction rows generalizing ri with
  | nil => simp [collect_cells_from]
  | cons row rest ih =>
    unfold collect_cells_from
    rw [List.mem_append]
    constructor
    · rintro (h | h)
      · obtain ⟨j, raw, h1, h2, h3⟩ := mem_collect_row_cells.mp h
        exact ⟨0, j, row, raw, rfl, by simpa using h1, h2, by simpa using h3⟩
      · obtain ⟨i, j, row', raw, h1, h2, h3, h4⟩ := ih.mp h
        refine ⟨i + 1, j, row', raw, by simpa using h1, h2, h3, ?_⟩
        rw [h4]
        congr 1
        omega
    · rintro ⟨i, j, row', raw, h1, h2, h3, h4⟩
      cases i with
      | zero =>
        left
        simp only [List.get?] at h1
        obtain rfl : row' = row := by injection h1 with h; exact h.symm
        exact mem_collect_row_cells.mpr ⟨j, raw, h2, h3, by simpa using h4⟩
      | succ i =>
        right
        refine ih.mpr ⟨i, j, row', raw, by simpa using h1, h2, h3, ?_⟩
        rw [h4]
        congr 1
        omega

theorem mem_collect_market_cells {rows : List (List String)} {cell : MarketCell} :
    cell ∈ collect_market_cells rows ↔
      ∃ row raw, rows.get? cell.row = some row ∧ row.get? cell.col = some raw ∧
        strTrim raw ≠ "" ∧ cell = mkMarketCell cell.row cell.col raw := by
  unfold collect_market_cells
  rw [mem_collect_cells_from]
  constructor
  · rintro ⟨i, j, row, raw, h1, h2, h3, h4⟩
    have hrow : cell.row = i := by
      rw [h4]
      show 0 + i = i
      omega
    have hcol : cell.col = j := by rw [h4]; rfl
    rw [hrow, hcol]
    exact ⟨row, raw, h1, h2, h3, by simpa using h4⟩
  · rintro ⟨row, raw, h1, h2, h3, h4⟩
    exact ⟨cell.row, cell.col, row, raw, h1, h2, h3, by simpa using h4⟩

theorem collect_coord_unique {rows : List (List String)} {c1 c2 : MarketCell}
    (h1 : c1 ∈ collect_market_cells rows) (h2 : c2 ∈ collect_market_cells rows)
    (hr : c1.row = c2.row) (hc : c1.col = c2.col) : c1 = c2 := by
  obtain ⟨row1, raw1, ha1, hb1, -, he1⟩ := mem_collect_market_cells.mp h1
  obtain ⟨row2, raw2, ha2, hb2, -, he2⟩ := mem_collect_market_cells.mp h2
  rw [hr] at ha1
  rw [ha2] at ha1
  obtain rfl : row1 = row2 := by injection ha1 with h; exact h.symm
  rw [hc] at hb1
  rw [hb2] at hb1
  obtain rfl : raw1 = raw2 := by injection hb1 with h; exact h.symm
  have hmk : mkMarketCell c1.row c1.col raw1 = mkMarketCell c2.row c2.col raw1 := by
    rw [hr, hc]
  exact he1.trans (hmk.trans he2.symm)

theorem market_cell_spec {s : GameSession} (hwf : SessionWF s) {r c : Nat}
    {cell : MarketCell} (h : s.market_cell r c = some cell) :
    cell ∈ collect_market_cells s.market ∧ cell.row = r ∧ cell.col = c := by
  unfold GameSession.market_cell at h
  have h1 := List.mem_of_find?_eq_some h
  have h2 := List.find?_some h
  rw [hwf.1] at h1
  simp only [Bool.and_eq_true, beq_iff_eq] at h2
  exact ⟨h1, h2.1, h2.2⟩

theorem is_par_cell_spec {st : PlayState} (hwf : SessionWF st.session)
    (hpar : ∃ c ∈ collect_market_cells st.session.market, c.is_par = true)
    {cell : MarketCell} (hmem : cell ∈ collect_market_cells st.session.market)
    (h : st.is_par_cell cell.row cell.col = true) : cell.is_par = true := by
  unfold PlayState.is_par_cell at h
  rw [List.any_eq_true] at h
  obtain ⟨pc, hpc_mem, hpc⟩ := h
  rw [hwf.2] at hpc_mem
  unfold available_par_cells_from at hpc_mem
  have hfil : ((collect_market_cells st.session.market).filter
      (fun c => c.is_par)).isEmpty = false := by
    obtain ⟨c, hc, hcp⟩ := hpar
    have hmemf : c ∈ (collect_market_cells st.session.market).filter
        (fun c => c.is_par) := List.mem_filter.mpr ⟨hc, hcp⟩
    cases hl : (collect_market_cells st.session.market).filter
        (fun c => c.is_par) with
    | nil => rw [hl] at hmemf; simp at hmemf
    | cons a l => simp
  rw [if_neg (by simp [hfil])] at hpc_mem
  obtain ⟨hpc_col, hpc_par⟩ := List.mem_filter.mp hpc_mem
  simp only [Bool.and_eq_true, beq_iff_eq] at hpc
  have : pc = cell := collect_coord_unique hpc_col hmem hpc.1 hpc.2
  rw [← this]
  exact hpc_par

theorem moveLoopAux_sound (st : PlayState) (rowDelta colDelta : Int)
    (maxAttempts : Nat) :
    ∀ (fuel : Nat) (row col : Int) (attempts : Nat) (cur : Nat × Nat),
      moveLoopAux st rowDelta colDelta maxAttempts fuel row col attempts =
        some cur →
      ∃ cell, st.session.market_cell cur.1 cur.2 = some cell ∧
        (st.mode = PlayMode.ParSelect → st.is_par_cell cell.row cell.col = true) := by
  intro fuel
  induction fuel with
  | zero =>
    intro row col attempts cur h
    exact absurd h (by simp [moveLoopAux])
  | succ n ih =>
    intro row col attempts cur h
    rw [moveLoopAux] at h
    dsimp only at h
    by_cases h1 : row + rowDelta < 0
    · rw [if_pos h1] at h
      exact Option.noConfusion h
    rw [if_neg h1] at h
    by_cases h2 : (st.session.market.length : Int) ≤ row + rowDelta
    · rw [if_pos h2] at h
      exact Option.noConfusion h
    rw [if_neg h2] at h
    by_cases h3 : marketRowLen st.session.market (row + rowDelta).toNat = 0
    · rw [if_pos h3] at h
      exact ih _ _ _ _ h
    rw [if_neg h3] at h
    cases h4 : candidateCol (marketRowLen st.session.market (row + rowDelta).toNat)
        rowDelta (col + colDelta) with
    | none =>
      rw [h4] at h
      exact Option.noConfusion h
    | some col1 =>
      rw [h4] at h
      dsimp only at h
      cases h5 : st.session.market_cell (row + rowDelta).toNat col1.toNat with
      | none =>
        rw [h5] at h
        dsimp only at h
        by_cases h6 : maxAttempts < attempts + 1
        · rw [if_pos h6] at h
          exact Option.noConfusion h
        · rw [if_neg h6] at h
          exact ih _ _ _ _ h
      | some cell =>
        rw [h5] at h
        dsimp only at h
        by_cases h7 : st.mode = PlayMode.ParSelect ∧
            ¬ st.is_par_cell cell.row cell.col
        · rw [if_pos h7] at h
          exact ih _ _ _ _ h
        · rw [if_neg h7] at h
          have hcur : cur = (cell.row, cell.col) := by
            injection h with h
            exact h.symm
          have hfind := List.find?_some h5
          simp only [Bool.and_eq_true, beq_iff_eq] at hfind
          refine ⟨cell, ?_, ?_⟩
          · rw [hcur]
            show st.session.market_cell cell.row cell.col = some cell
            rw [hfind.1, hfind.2]
            exact h5
          · intro hmode
            by_contra hnp
            exact h7 ⟨hmode, by simpa using hnp⟩

theorem move_market_cursor_frame (st : PlayState) (rowDelta colDelta : Int) :
    (st.move_market_cursor rowDelta colDelta).session = st.session ∧
    (st.move_market_cursor rowDelta colDelta).mode = st.mode := by
  unfold PlayState.move_market_cursor
  dsimp only
  split
  · exact ⟨rfl, rfl⟩
  split
  · exact ⟨rfl, rfl⟩
  split
  · split
    · exact ⟨rfl, rfl⟩
    split
    · exact ⟨rfl, rfl⟩
    · exact ⟨rfl, rfl⟩
  · split
    · exact ⟨rfl, rfl⟩
    · exact ⟨rfl, rfl⟩

/-- The safety property of claim C2: the cursor denotes an existing, non-empty
grid cell, which in `ParSelect` mode is par-flagged whenever any par cell
exists. -/
def ValidCursor (st : PlayState) : Prop :=
  ∃ cell ∈ collect_market_cells st.session.market,
    cell.row = st.market_cursor.1 ∧ cell.col = st.market_cursor.2 ∧
    (st.mode = PlayMode.ParSelect →
      (∃ c ∈ collect_market_cells st.session.market, c.is_par = true) →
      cell.is_par = true)

theorem move_market_cursor_preserves (st : PlayState) (rowDelta colDelta : Int)
    (hwf : SessionWF st.session) (hrows : 2 ≤ st.session.market.length)
    (hstart : ValidCursor st) :
    ValidCursor (st.move_market_cursor rowDelta colDelta) := by
  unfold PlayState.move_market_cursor
  dsimp only
  split
  · exact hstart
  split
  · exact hstart
  split
  · rename_i hone
    exact absurd hone (by omega)
  · split
    · rename_i cur heq
      obtain ⟨cell, hcell, hparb⟩ :=
        moveLoopAux_sound st rowDelta colDelta _ _ _ _ _ _ heq
      obtain ⟨hmem, hrow, hcol⟩ := market_cell_spec hwf hcell
      exact ⟨cell, hmem, hrow, hcol, fun hm hp => is_par_cell_spec hwf hp hmem
        (hparb hm)⟩
    · exact hstart

/-- A whole input session's worth of cursor moves, folded left to right. -/
def applyMoves (st : PlayState) (moves : List (Int × Int)) : PlayState :=
  moves.foldl (fun s m => s.move_market_cursor m.1 m.2) st

/-- C2 (amended): on market grids with more than one row, any sequence of
cursor moves starting from a cursor on an existing, non-empty, filter-valid
cell keeps the cursor on such a cell (in `ParSelect` mode a par cell, whenever
one exists) — a move that finds no such cell leaves the cursor unchanged; and
membership in the cell index is exactly "non-blank cell of the grid". On
single-row grids the wrap branch applies neither the filter nor the existence
check (see the counterexample). -/
theorem claim_C2 (st : PlayState) (moves : List (Int × Int))
    (hwf : SessionWF st.session) (hrows : 2 ≤ st.session.market.length)
    (hstart : ValidCursor st) :
    ValidCursor (applyMoves st moves) ∧
    ∀ cell : MarketCell, cell ∈ collect_market_cells st.session.market ↔
      ∃ row raw, st.session.market.get? cell.row = some row ∧
        row.get? cell.col = some raw ∧ strTrim raw ≠ "" ∧
        cell = mkMarketCell cell.row cell.col raw := by
  constructor
  · induction moves generalizing st with
    | nil => exact hstart
    | cons m rest ih =>
      have hframe := move_market_cursor_frame st m.1 m.2
      have h1 := move_market_cursor_preserves st m.1 m.2 hwf hrows hstart
      exact ih (st.move_market_cursor m.1 m.2) (by rw [hframe.1]; exact hwf)
        (by rw [hframe.1]; exact hrows) h1
  · intro cell
    exact mem_collect_market_cells

/-- A one-row `ParSelect` state whose cursor rests on the only par cell. -/
def wrapParState : PlayState :=
  { basePlayState (mkLoadedSession [["100", "110p"]] [demoCorp] []) with
      mode := PlayMode.ParSelect, market_cursor := (0, 1) }

/-- Counterexample to C2 as stated: on the single-row grid
`["100", "110p"]` in `ParSelect` mode, moving right from the par cell `(0,1)`
wraps the cursor to `(0,0)`, a non-par cell, although a par cell exists — the
single-row branch never applies the mode filter. -/
theorem claim_C2_counterexample :
    (wrapParState.move_market_cursor 0 1).market_cursor = (0, 0) ∧
    wrapParState.mode = PlayMode.ParSelect ∧
    wrapParState.is_par_cell 0 0 = false ∧
    (∃ c ∈ collect_market_cells wrapParState.session.market, c.is_par = true) ∧
    (0, 0) ≠ wrapParState.market_cursor := by
  refine ⟨by decide, rfl, by decide, ⟨mkMarketCell 0 1 "110p", by decide, by decide⟩,
    by decide⟩

/-- Witness for C2 (amended) on a two-row grid with two moves. -/
theorem claim_C2_witness :
    ValidCursor (applyMoves
      (basePlayState (mkLoadedSession [["100", "110p"], ["90", "80"]] [demoCorp] []))
      [(1, 0), (0, 1)]) := by
  refine (claim_C2 (basePlayState
      (mkLoadedSession [["100", "110p"], ["90", "80"]] [demoCorp] []))
      [(1, 0), (0, 1)] ⟨rfl, rfl⟩ (by decide) ?_).1
  exact ⟨mkMarketCell 0 0 "100", by decide, rfl, rfl,
    fun hm => absurd hm (by decide)⟩

/-! ### C4: train supply accounting lemmas -/

theorem poolSupply_cons (e : TrainPoolEntry) (pool : List TrainPoolEntry)
    (n : String) :
    poolSupply (e :: pool) n =
      (if e.name == n then e.remaining else 0) + poolSupply pool n := by
  unfold poolSupply
  rw [List.filter_cons]
  split
  · simp
  · simp

theorem poolSupply_set (n : String) :
    ∀ (pool : List TrainPoolEntry) (i : Nat) (entry e' : TrainPoolEntry),
      pool.get? i = some entry →
      poolSupply (pool.set i e') n =
        poolSupply pool n - (if entry.name == n then entry.remaining else 0)
          + (if e'.name == n then e'.remaining else 0) := by
  intro pool
  induction pool with
  | nil => intro i entry e' h; simp at h
  | cons p ps ih =>
    intro i entry e' h
    cases i with
    | zero =>
      obtain rfl : p = entry := by simpa using h
      show poolSupply (e' :: ps) n = _
      rw [poolSupply_cons, poolSupply_cons]
      split_ifs <;> ring
    | succ i =>
      have h' : ps.get? i = some entry := by simpa using h
      show poolSupply (p :: ps.set i e') n = _
      rw [poolSupply_cons, poolSupply_cons, ih i entry e' h']
      ring

theorem ownedSupply_cons (c : Corporation) (cs : List Corporation) (n : String) :
    ownedSupply (c :: cs) n = ownedOf c n + ownedSupply cs n := by
  unfold ownedSupply
  simp

theorem ownedSupply_set (n : String) :
    ∀ (corps : List Corporation) (i : Nat) (corp corp' : Corporation),
      corps.get? i = some corp →
      ownedSupply (corps.set i corp') n =
        ownedSupply corps n - ownedOf corp n + ownedOf corp' n := by
  intro corps
  induction corps with
  | nil => intro i corp corp' h; simp at h
  | cons c cs ih =>
    intro i corp corp' h
    cases i with
    | zero =>
      obtain rfl : c = corp := by simpa using h
      show ownedSupply (corp' :: cs) n = _
      rw [ownedSupply_cons, ownedSupply_cons]
      ring
    | succ i =>
      have h' : cs.get? i = some corp := by simpa using h
      show ownedSupply (c :: cs.set i corp') n = _
      rw [ownedSupply_cons, ownedSupply_cons, ih i corp corp' h']
      ring

theorem ownedOf_append (corp : Corporation) (t : CorporationTrain) (n : String) :
    ownedOf { corp with trains := corp.trains ++ [t] } n =
      ownedOf corp n + (if t.name == n then 1 else 0) := by
  unfold ownedOf
  dsimp only
  rw [List.filter_append, List.length_append]
  split_ifs with h
  · simp [List.filter, h]
  · simp [List.filter, h]

theorem filter_length_eraseIdx {α : Type} (p : α → Bool) :
    ∀ (l : List α) (i : Nat) (a : α), l.get? i = some a →
      ((l.eraseIdx i).filter p).length =
        (l.filter p).length - (if p a then 1 else 0) ∧
      (if p a then 1 else 0) ≤ (l.filter p).length := by
  intro l
  induction l with
  | nil => intro i a h; simp at h
  | cons x xs ih =>
    intro i a h
    cases i with
    | zero =>
      obtain rfl : x = a := by simpa using h
      show ((xs).filter p).length = _ ∧ _
      rw [List.filter_cons]
      split_ifs with hc
      · simp
      · simp
    | succ i =>
      have h' : xs.get? i = some a := by simpa using h
      obtain ⟨ih1, ih2⟩ := ih i a h'
      show ((x :: xs.eraseIdx i).filter p).length = _ ∧ _
      rw [List.filter_cons, List.filter_cons]
      split_ifs at ih1 ih2 ⊢ with hpa hpx
      all_goals first
        | (constructor
           · simp only [List.length_cons]
             omega
           · simp only [List.length_cons]
             omega)
        | (constructor
           · simpa using ih1
           · simpa using ih2)

theorem ownedOf_eraseIdx (corp : Corporation) (i : Nat) (t : CorporationTrain)
    (n : String) (h : corp.trains.get? i = some t) :
    ownedOf { corp with trains := corp.trains.eraseIdx i } n =
      ownedOf corp n - (if t.name == n then 1 else 0) := by
  unfold ownedOf
  dsimp only
  obtain ⟨h1, h2⟩ := filter_length_eraseIdx (fun tr => tr.name == n) corp.trains i t h
  rw [h1]
  split_ifs at h2 ⊢ with hc
  · omega
  · omega

theorem typeTotal_cons (ty : TrainType) (rest : List TrainType) (n : String) :
    typeTotal (ty :: rest) n =
      (if ty.name == n then ty.total else 0) + typeTotal rest n := by
  unfold typeTotal
  rw [List.filter_cons]
  split
  · simp
  · simp

theorem poolSupply_loaded (types : List TrainType) (n : String) :
    poolSupply (types.map (fun ty => ({ name := ty.name, remaining := ty.total } :
      TrainPoolEntry))) n = typeTotal types n := by
  induction types with
  | nil => rfl
  | cons ty rest ih =>
    rw [List.map_cons, poolSupply_cons, typeTotal_cons, ih]

theorem ownedSupply_no_trains (corps : List Corporation) (n : String)
    (h : ∀ corp ∈ corps, corp.trains = []) : ownedSupply corps n = 0 := by
  induction corps with
  | nil => rfl
  | cons c cs ih =>
    rw [ownedSupply_cons, ih (fun corp hc => h corp (List.mem_cons_of_mem _ hc))]
    have hc : c.trains = [] := h c (List.mem_cons_self _ _)
    unfold ownedOf
    rw [hc]
    simp

theorem availableTrainsFrom_mem {pool : List TrainPoolEntry} :
    ∀ {types : List TrainType} {k idx : Nat} {ty : TrainType} {rem : Int},
      (idx, ty, rem) ∈ availableTrainsFrom pool k types →
      k ≤ idx ∧ types.get? (idx - k) = some ty ∧
      ((pool.get? idx).map TrainPoolEntry.remaining).getD 0 = rem ∧ 0 < rem := by
  intro types
  induction types with
  | nil =>
    intro k idx ty rem h
    simp [availableTrainsFrom] at h
  | cons t rest ih =>
    intro k idx ty rem h
    unfold availableTrainsFrom at h
    rw [List.mem_append] at h
    rcases h with h | h
    · by_cases hr : 0 < ((pool.get? k).map TrainPoolEntry.remaining).getD 0
      · rw [if_pos hr] at h
        simp only [List.mem_singleton, Prod.mk.injEq] at h
        obtain ⟨rfl, rfl, rfl⟩ := h
        exact ⟨Nat.le_refl _, by simp, rfl, hr⟩
      · rw [if_neg hr] at h
        simp at h
    · obtain ⟨h1, h2, h3, h4⟩ := ih h
      refine ⟨by omega, ?_, h3, h4⟩
      have hk : idx - k = (idx - (k + 1)) + 1 := by omega
      rw [hk]
      simpa using h2

theorem available_trains_get? {st : PlayState} {sel idx : Nat} {ty : TrainType}
    {rem : Int} (h : st.available_trains.get? sel = some (idx, ty, rem)) :
    ∃ entry, st.session.train_pool.get? idx = some entry ∧
      entry.remaining = rem ∧ 0 < rem ∧
      st.session.train_types.get? idx = some ty := by
  have hmem : (idx, ty, rem) ∈
      availableTrainsFrom st.session.train_pool 0 st.session.train_types :=
    List.get?_mem h
  obtain ⟨h1, h2, h3, h4⟩ := availableTrainsFrom_mem hmem
  rw [Nat.sub_zero] at h2
  cases hp : st.session.train_pool.get? idx with
  | none =>
    rw [hp] at h3
    simp at h3
    omega
  | some entry =>
    rw [hp] at h3
    simp at h3
    exact ⟨entry, rfl, h3, h4, h2⟩

theorem purchase_success {st : PlayState} {sel idx : Nat} {ty : TrainType}
    {rem : Int} (h : st.available_trains.get? sel = some (idx, ty, rem)) :
    ∃ entry, st.session.train_pool.get? idx = some entry ∧
      entry.remaining = rem ∧ 0 < rem ∧
      st.session.train_types.get? idx = some ty ∧
      st.purchase_available_train sel =
        ({ st with session := { st.session with train_pool :=
            (st.session.train_pool.set idx
              { entry with remaining := entry.remaining - 1 }) } },
         some { name := ty.name, distance := ty.distance, price := ty.price,
                revenue_stops := [], last_revenue := 0 }) := by
  obtain ⟨entry, h1, h2, h3, h4⟩ := available_trains_get? h
  refine ⟨entry, h1, h2, h3, h4, ?_⟩
  unfold PlayState.purchase_available_train
  rw [h]
  dsimp only
  rw [h4]
  dsimp only
  rw [h1]
  dsimp only
  rw [if_neg (by omega)]

theorem purchase_fail {st : PlayState} {sel : Nat}
    (h : st.available_trains.get? sel = none) :
    st.purchase_available_train sel = (st, none) := by
  unfold PlayState.purchase_available_train
  rw [h]

theorem sync_pool_cursor_session (st : PlayState) :
    st.sync_pool_cursor.session = st.session := by
  unfold PlayState.sync_pool_cursor
  dsimp only
  split_ifs <;> rfl

theorem focus_pool_internal_session (st : PlayState) :
    st.focus_pool_internal.1.session = st.session := by
  unfold PlayState.focus_pool_internal
  split_ifs with h
  · rfl
  · exact sync_pool_cursor_session _

theorem focus_owned_internal_session (st : PlayState) :
    st.focus_owned_internal.1.session = st.session := by
  unfold PlayState.focus_owned_internal
  split_ifs <;> rfl

theorem focus_owned_session (st : PlayState) :
    st.focus_owned.session = st.session := by
  unfold PlayState.focus_owned
  cases h : st.focus_owned_internal with
  | mk st1 ok =>
    have hs : st1.session = st.session := by
      have h2 := focus_owned_internal_session st
      rw [h] at h2
      exact h2
    dsimp only
    cases ok with
    | true => exact hs
    | false => exact (focus_pool_internal_session st1).trans hs

theorem set_owned_cursor_session (st : PlayState) (i : Nat) :
    (st.set_owned_cursor i).session = st.session := by
  unfold PlayState.set_owned_cursor
  split
  · split_ifs <;> rfl
  · rfl

theorem apply_train_purchase_conserves (st : PlayState) (sel : Nat)
    (hwf : TrainPoolWF st.session) (n : String) :
    supplyCount (st.apply_train_purchase sel).session n =
      supplyCount st.session n := by
  unfold PlayState.apply_train_purchase
  cases hc : st.current_corporation with
  | none => rfl
  | some corp0 =>
    dsimp only
    cases hav : st.available_trains.get? sel with
    | none =>
      rw [purchase_fail hav]
      dsimp only
      rw [sync_pool_cursor_session]
    | some sel3 =>
      obtain ⟨idx, ty, rem⟩ := sel3
      obtain ⟨entry, h1, h2, h3, h4, h5⟩ := purchase_success hav
      rw [h5]
      dsimp only
      have hcc : ({ st with session := { st.session with train_pool :=
          (st.session.train_pool.set idx
            { entry with remaining := entry.remaining - 1 }) } } :
          PlayState).current_corporation = some corp0 := hc
      rw [hcc]
      dsimp only
      rw [sync_pool_cursor_session, set_owned_cursor_session, focus_owned_session]
      have hname : entry.name = ty.name := by
        obtain ⟨entry2, hp2, hn2⟩ := hwf.2 idx ty h4
        rw [h1] at hp2
        obtain rfl : entry2 = entry := by injection hp2 with h; exact h.symm
        exact hn2
      unfold supplyCount PlayState.with_corporation
      dsimp only
      rw [poolSupply_set n _ idx entry _ h1]
      rw [ownedSupply_set n _ st.corporation_index corp0 _ hc]
      have happ : ownedOf (update_corporation_revenue { corp0 with
          trains := corp0.trains ++
            [{ name := ty.name, distance := ty.distance, price := ty.price,
               revenue_stops := [], last_revenue := 0 }] }) n =
          ownedOf corp0 n +
            (if ty.name == n then 1 else 0) :=
        ownedOf_append corp0
          { name := ty.name, distance := ty.distance, price := ty.price,
            revenue_stops := [], last_revenue := 0 } n
      rw [happ]
      have hen : (({ entry with remaining := entry.remaining - 1 } :
          TrainPoolEntry).name == n) = (entry.name == n) := rfl
      rw [hen, hname]
      split_ifs <;> ring

theorem rust_tail_session (st1 : PlayState) (r : Nat) :
    (if r = 0 then ({ st1 with train_owned_cursor := 0 }).focus_pool_internal.1
     else if r ≤ st1.train_owned_cursor then { st1 with train_owned_cursor := r - 1 }
     else st1).session = st1.session := by
  split_ifs
  · exact focus_pool_internal_session _
  · rfl
  · rfl

theorem rust_effect (st : PlayState) :
    st.rust_selected_train.1.session.train_pool = st.session.train_pool ∧
    st.rust_selected_train.1.session.train_types = st.session.train_types ∧
    (st.rust_selected_train.2 = none → st.rust_selected_train.1 = st) ∧
    (∀ t n, st.rust_selected_train.2 = some t →
      supplyCount st.rust_selected_train.1.session n =
        supplyCount st.session n - (if t.name == n then 1 else 0)) := by
  unfold PlayState.rust_selected_train
  by_cases hf : st.train_focus ≠ TrainFocus.Owned
  · rw [if_pos hf]
    exact ⟨rfl, rfl, fun _ => rfl, fun t n h => absurd h (by simp)⟩
  rw [if_neg hf]
  cases hc : st.current_corporation with
  | none => exact ⟨rfl, rfl, fun _ => rfl, fun t n h => absurd h (by simp)⟩
  | some corp =>
    dsimp only
    by_cases hne : corp.trains.isEmpty
    · rw [if_pos hne]
      exact ⟨rfl, rfl, fun _ => rfl, fun t n h => absurd h (by simp)⟩
    rw [if_neg hne]
    cases hget : corp.trains.get?
        (Nat.min st.train_owned_cursor (corp.trains.length - 1)) with
    | none => exact ⟨rfl, rfl, fun _ => rfl, fun t n h => absurd h (by simp)⟩
    | some removed =>
      dsimp only
      rw [rust_tail_session]
      refine ⟨rfl, rfl, fun habs => absurd habs (by simp), ?_⟩
      intro t n ht
      obtain rfl : removed = t := by
        injection ht with h
      unfold supplyCount PlayState.with_corporation
      dsimp only
      rw [ownedSupply_set n _ st.corporation_index corp _ hc]
      have herase := ownedOf_eraseIdx corp
        (Nat.min st.train_owned_cursor (corp.trains.length - 1)) removed n hget
      have hupd : ownedOf (update_corporation_revenue { corp with
          trains := corp.trains.eraseIdx
            (Nat.min st.train_owned_cursor (corp.trains.length - 1)) }) n =
          ownedOf { corp with
            trains := corp.trains.eraseIdx
              (Nat.min st.train_owned_cursor (corp.trains.length - 1)) } n := rfl
      rw [hupd, herase]
      ring

theorem apply_train_purchase_pool_wf (st : PlayState) (sel : Nat)
    (hwf : TrainPoolWF st.session) :
    TrainPoolWF (st.apply_train_purchase sel).session := by
  unfold PlayState.apply_train_purchase
  cases hc : st.current_corporation with
  | none => exact hwf
  | some corp0 =>
    dsimp only
    cases hav : st.available_trains.get? sel with
    | none =>
      rw [purchase_fail hav]
      dsimp only
      rw [sync_pool_cursor_session]
      exact hwf
    | some sel3 =>
      obtain ⟨idx, ty, rem⟩ := sel3
      obtain ⟨entry, h1, h2, h3, h4, h5⟩ := purchase_success hav
      rw [h5]
      dsimp only
      have hcc : ({ st with session := { st.session with train_pool :=
          (st.session.train_pool.set idx
            { entry with remaining := entry.remaining - 1 }) } } :
          PlayState).current_corporation = some corp0 := hc
      rw [hcc]
      dsimp only
      rw [sync_pool_cursor_session, set_owned_cursor_session, focus_owned_session]
      constructor
      · show (st.session.train_pool.set idx
          { entry with remaining := entry.remaining - 1 }).length =
          st.session.train_types.length
        rw [List.length_set]
        exact hwf.1
      · intro i ty2 hty
        obtain ⟨entry2, hp2, hn2⟩ := hwf.2 i ty2 hty
        by_cases hi : idx = i
        · subst hi
          refine ⟨{ entry with remaining := entry.remaining - 1 }, ?_, ?_⟩
          · show (st.session.train_pool.set idx
              { entry with remaining := entry.remaining - 1 }).get? idx = _
            rw [List.get?_set_eq, h1]
            rfl
          · show entry.name = ty2.name
            rw [h1] at hp2
            obtain rfl : entry2 = entry := by injection hp2 with h; exact h.symm
            exact hn2
        · refine ⟨entry2, ?_, hn2⟩
          show (st.session.train_pool.set idx
            { entry with remaining := entry.remaining - 1 }).get? i = _
          rw [List.get?_set_ne _ _ hi]
          exact hp2

theorem applyTrainOp_wf (st : PlayState) (op : TrainOp)
    (hwf : TrainPoolWF st.session) :
    TrainPoolWF ((applyTrainOp st op).session) := by
  cases op with
  | purchase sel => exact apply_train_purchase_pool_wf st sel hwf
  | rust =>
    show TrainPoolWF st.rust_selected_train.1.session
    constructor
    · rw [(rust_effect st).1, (rust_effect st).2.1]
      exact hwf.1
    · intro i ty hty
      rw [(rust_effect st).2.1] at hty
      obtain ⟨entry, hp, hn⟩ := hwf.2 i ty hty
      exact ⟨entry, by rw [(rust_effect st).1]; exact hp, hn⟩

theorem trainOps_bound (ops : List TrainOp) :
    ∀ (st : PlayState) (B : String → Int), TrainPoolWF st.session →
      (∀ n, supplyCount st.session n ≤ B n) →
      ∀ n, supplyCount ((ops.foldl applyTrainOp st).session) n ≤ B n := by
  induction ops with
  | nil =>
    intro st B hwf hb n
    exact hb n
  | cons op rest ih =>
    intro st B hwf hb n
    refine ih (applyTrainOp st op) B (applyTrainOp_wf st op hwf) ?_ n
    intro m
    cases op with
    | purchase sel =>
      show supplyCount (st.apply_train_purchase sel).session m ≤ B m
      rw [apply_train_purchase_conserves st sel hwf m]
      exact hb m
    | rust =>
      show supplyCount st.rust_selected_train.1.session m ≤ B m
      cases hr : st.rust_selected_train.2 with
      | none =>
        rw [(rust_effect st).2.2.1 hr]
        exact hb m
      | some t =>
        rw [(rust_effect st).2.2.2 t m hr]
        have := hb m
        split_ifs <;> omega

/-- C4: a train purchase decrements the selected pool entry and yields a
fresh owned train with empty stops; an invalid selection changes nothing;
rusting never returns a train to the pool and strictly decreases the
per-name pool+owned supply by one; consequently, starting from a freshly
loaded session (pool at the catalog totals, no owned trains), any sequence
of purchases and retirements keeps the pool+owned supply of every train name
at or below its original total. -/
theorem claim_C4 :
    (∀ (st : PlayState) (sel idx : Nat) (ty : TrainType) (rem : Int),
      st.available_trains.get? sel = some (idx, ty, rem) →
      ∃ entry, st.session.train_pool.get? idx = some entry ∧
        entry.remaining = rem ∧ 0 < rem ∧
        st.session.train_types.get? idx = some ty ∧
        st.purchase_available_train sel =
          ({ st with session := { st.session with train_pool :=
              (st.session.train_pool.set idx
                { entry with remaining := entry.remaining - 1 }) } },
           some { name := ty.name, distance := ty.distance, price := ty.price,
                  revenue_stops := [], last_revenue := 0 })) ∧
    (∀ (st : PlayState) (sel : Nat), st.available_trains.get? sel = none →
      st.purchase_available_train sel = (st, none)) ∧
    (∀ st : PlayState,
      st.rust_selected_train.1.session.train_pool = st.session.train_pool) ∧
    (∀ (st : PlayState) (sel : Nat), TrainPoolWF st.session → ∀ n,
      supplyCount (st.apply_train_purchase sel).session n =
        supplyCount st.session n) ∧
    (∀ (st : PlayState) (t : CorporationTrain),
      st.rust_selected_train.2 = some t →
      supplyCount st.rust_selected_train.1.session t.name =
        supplyCount st.session t.name - 1) ∧
    (∀ (types : List TrainType) (corps : List Corporation)
        (m : List (List String)) (n : String),
      (∀ corp ∈ corps, corp.trains = []) →
      supplyCount (mkLoadedSession m corps types) n = typeTotal types n) ∧
    (∀ (ops : List TrainOp) (st : PlayState) (B : String → Int),
      TrainPoolWF st.session → (∀ n, supplyCount st.session n ≤ B n) →
      ∀ n, supplyCount ((ops.foldl applyTrainOp st).session) n ≤ B n) := by
  refine ⟨?_, ?_, ?_, ?_, ?_, ?_, ?_⟩
  · intro st sel idx ty rem h
    exact purchase_success h
  · intro st sel h
    exact purchase_fail h
  · intro st
    exact (rust_effect st).1
  · intro st sel hwf n
    exact apply_train_purchase_conserves st sel hwf n
  · intro st t h
    have h2 := (rust_effect st).2.2.2 t t.name h
    simpa using h2
  · intro types corps m n hcorps
    unfold supplyCount mkLoadedSession
    dsimp only
    rw [poolSupply_loaded, ownedSupply_no_trains corps n hcorps]
    ring
  · intro ops st B hwf hb n
    exact trainOps_bound ops st B hwf hb n

/-- A catalog with one train type of total supply 3. -/
def trainDemoType : TrainType :=
  { name := "2", distance := JsonVal.num 2, price := some 80, total := 3,
    rusts_on := JsonVal.null, obsolete_on := JsonVal.null }

def trainDemoState : PlayState :=
  basePlayState (mkLoadedSession [["10"]] [demoCorp] [trainDemoType])

theorem trainDemo_wf : TrainPoolWF trainDemoState.session := by
  constructor
  · rfl
  · intro i ty h
    cases i with
    | zero =>
      obtain rfl : trainDemoType = ty := by injection h with h2
      exact ⟨{ name := "2", remaining := 3 }, rfl, rfl⟩
    | succ i =>
      have h2 : trainDemoState.session.train_types = [trainDemoType] := rfl
      rw [h2] at h
      simp at h

/-- Witness for C4 on a one-type catalog with supply 3. -/
theorem claim_C4_witness :
    supplyCount (trainDemoState.apply_train_purchase 0).session "2" =
      supplyCount trainDemoState.session "2" ∧
    supplyCount trainDemoState.session "2" = typeTotal [trainDemoType] "2" ∧
    trainDemoState.purchase_available_train 9 = (trainDemoState, none) := by
  refine ⟨claim_C4.2.2.2.1 trainDemoState 0 trainDemo_wf "2", ?_, ?_⟩
  · exact claim_C4.2.2.2.2.2.1 [trainDemoType] [demoCorp] [["10"]] "2"
      (by intro corp hc; rw [List.mem_singleton] at hc; rw [hc]; rfl)
  · exact claim_C4.2.1 trainDemoState 9 rfl

end App18
